import Mathlib

/-!
Verification of the Function Service Cache (FSC) of
`pkg/executor/fscache/functionServiceCache.go`.

The Go code is embedded shallowly:

* machine time is modelled as integral seconds (`Int`); every operation that
  calls `time.Now()` in Go takes the current time `now : Int` as an argument;
* Go pointers to `FuncSvc` records are modelled by a small heap: a pointer is
  a `Nat` naming a heap cell.  This keeps the aliasing behaviour of the source
  observable (the cache mutates `Atime` through shared pointers, while lookup
  results are fresh value copies);
* the keyed maps of `pkg/cache` (not part of the sources at hand) are
  association lists with the `Get`/`Set`/`Delete`/`Copy` semantics the spec
  describes: `NotFound` on a missing key, `NameExists` (plus the existing
  value) when `Set` hits a bound key, no overwrite;
* fallible operations return their Go `error` result as `Option FError` or
  `Except FError`.
-/

namespace Fscache

/-- Error codes of the repository's error package (`ferror`). -/
inductive ErrorCode where
  | ErrorNotFound
  | ErrorNameExists
  | ErrorInternal
deriving DecidableEq, Repr

/-- Modelled from the spec: `ferror.Error` (pkg/error, not under src/), a coded
error value; the spec's exported error codes are `NotFound`, `NameExists`,
`Internal`. -/
structure FError where
  code : ErrorCode
  message : String
deriving DecidableEq, Repr

/-- IsNotFoundError checks if err is ErrorNotFound. -/
def IsNotFoundError (e : FError) : Bool :=
  e.code == ErrorCode.ErrorNotFound

/-- IsNameExistError checks if err is ErrorNameExists. -/
def IsNameExistError (e : FError) : Bool :=
  e.code == ErrorCode.ErrorNameExists

/-- The fragment of Kubernetes `metav1.ObjectMeta` the cache reads: `Name`,
`Namespace`, `UID`, `ResourceVersion`.  The field `nspace` stands for the Go
field `Namespace` (a Lean keyword). -/
structure ObjectMeta where
  name : String
  nspace : String
  uid : String
  resourceVersion : String
deriving DecidableEq, Repr

/-- Modelled from the spec: `crd.CacheKey` (pkg/crd, not under src/) — the
"FunctionKey", a stable string derived from the function's
(namespace, name, resource-version). -/
def CacheKey (m : ObjectMeta) : String :=
  m.nspace ++ "_" ++ m.name ++ "_" ++ m.resourceVersion

/-- A Kubernetes object reference; only `Kind` and `Name` are read (by `Log`). -/
structure KubeRef where
  kind : String
  name : String
deriving DecidableEq, Repr

/-- FuncSvc represents a function service.  `function` and `environment` are
Go pointers and hence nilable (`Option`); `cpuLimit` is the opaque
`resource.Quantity`, kept as its display string (the core needs no arithmetic
on it); `ctime`/`atime` are timestamps in integral seconds. -/
structure FuncSvc where
  name : String
  function : Option ObjectMeta
  environment : Option ObjectMeta
  address : String
  kubernetesObjects : List KubeRef
  cpuLimit : String
  ctime : Int
  atime : Int
deriving DecidableEq, Repr

/-- Dereference `fsvc.Function`.  The Go cache paths (`Add`, `DeleteEntry`,
`AddFunc`, …) dereference the pointer without a nil check — a nil function
would panic there — so the default record is never reached on those paths;
every theorem below instantiates `function` with `some`. -/
def fnMeta (f : FuncSvc) : ObjectMeta :=
  f.function.getD ⟨"", "", "", ""⟩

/-- First-match lookup in an association list (the model of a keyed Go map;
states built by the operations below never hold a key twice). -/
def alookup [DecidableEq κ] (k : κ) : List (κ × α) → Option α
  | [] => none
  | (k', v) :: rest => if k' = k then some v else alookup k rest

/-- Remove every binding of key `k` (at most one in any reachable state). -/
def aerase [DecidableEq κ] (k : κ) : List (κ × α) → List (κ × α)
  | [] => []
  | (k', v) :: rest => if k' = k then aerase k rest else (k', v) :: aerase k rest

/-- Overwrite the value bound to `k`, keeping the list's shape; a no-op when
`k` is unbound. -/
def awrite [DecidableEq κ] (k : κ) (v : α) : List (κ × α) → List (κ × α)
  | [] => []
  | (k', v') :: rest =>
    if k' = k then (k, v) :: awrite k v rest else (k', v') :: awrite k v rest

/-- Insert-or-replace the binding of `k`. -/
def aupsert [DecidableEq κ] (k : κ) (v : α) : List (κ × α) → List (κ × α)
  | [] => [(k, v)]
  | (k', v') :: rest =>
    if k' = k then (k, v) :: rest else (k', v') :: aupsert k v rest

/-- The heap of `FuncSvc` records: Go pointers are cell names (`Nat`). -/
structure Heap where
  cells : List (Nat × FuncSvc)
  next : Nat
deriving DecidableEq, Repr

/-- Dereference a pointer. -/
def Heap.read (h : Heap) (p : Nat) : Option FuncSvc :=
  alookup p h.cells

/-- Assign through a pointer. -/
def Heap.write (h : Heap) (p : Nat) (v : FuncSvc) : Heap :=
  { h with cells := awrite p v h.cells }

/-- Allocate a fresh cell holding `v` (Go: taking the address of a local, or
of a fresh copy) and return its pointer. -/
def Heap.alloc (h : Heap) (v : FuncSvc) : Heap × Nat :=
  ({ cells := (h.next, v) :: h.cells, next := h.next + 1 }, h.next)

/-- Heap well-formedness: every allocated cell lies below the allocation
frontier, so fresh cells never shadow live ones. -/
def Heap.WF (h : Heap) : Prop :=
  ∀ c ∈ h.cells, c.1 < h.next

instance (h : Heap) : Decidable h.WF := by
  unfold Heap.WF; infer_instance

/-- Modelled from the spec: `cache.Cache.Get` (pkg/cache, not under src/) —
lookup that surfaces `NotFound` on a missing key. -/
def cacheGet (c : List (String × α)) (k : String) : Except FError α :=
  match alookup k c with
  | none => Except.error ⟨ErrorCode.ErrorNotFound, k⟩
  | some v => Except.ok v

/-- Modelled from the spec: `cache.Cache.Set` — inserts only when the key is
free; when the key is already bound it returns the existing value together
with a `NameExists` error and leaves the map unchanged (no overwrite). -/
def cacheSet (c : List (String × α)) (k : String) (v : α) :
    Option α × List (String × α) × Option FError :=
  match alookup k c with
  | some old => (some old, c, some ⟨ErrorCode.ErrorNameExists, k⟩)
  | none => (none, (k, v) :: c, none)

/-- Modelled from the spec: `cache.Cache.Delete` — removes the binding,
reporting `NotFound` when the key is unbound. -/
def cacheDelete (c : List (String × α)) (k : String) :
    List (String × α) × Option FError :=
  match alookup k c with
  | none => (c, some ⟨ErrorCode.ErrorNotFound, k⟩)
  | some _ => (aerase k c, none)

/-- Modelled from the spec: one `PoolEntry` of the pool cache
(`val`, `activeRequests`, `currentCPUUsage`, `cpuLimit`). -/
structure PoolEntry where
  val : FuncSvc
  activeRequests : Int
  currentCPUUsage : String
  cpuLimit : String
deriving DecidableEq, Repr

/-- Modelled from the spec: a pool-cache group — per-address entries, the
count of promised specializations and the waiter-queue length (the waiters
themselves are a concurrency feature and are not modelled; `queueLen` is kept
because `DumpFnSvcCache` prints it). -/
structure FnSvcGroup where
  svcWaiting : Int
  queueLen : Int
  svcs : List (String × PoolEntry)
deriving DecidableEq, Repr

/-- Modelled from the spec: the `PoolCache` — FunctionKey → group. -/
abbrev PoolCache : Type :=
  List (String × FnSvcGroup)

/-- The FunctionServiceCache state: the heap of records, the three indices
(`byFunction` stores pointers, the two secondary indices store `ObjectMeta`
values, exactly as the Go maps do) and the pool cache. -/
structure FunctionServiceCache where
  heap : Heap
  byFunction : List (String × Nat)
  byAddress : List (String × ObjectMeta)
  byFunctionUID : List (String × ObjectMeta)
  connFunctionCache : PoolCache
deriving DecidableEq, Repr

/-- The state right after `MakeFunctionServiceCache`: all indices empty. -/
def emptyFsc : FunctionServiceCache :=
  { heap := { cells := [], next := 0 }
    byFunction := []
    byAddress := []
    byFunctionUID := []
    connFunctionCache := [] }

/-- `_touchByAddress`: resolve `byAddress → byFunction` and set the record's
`Atime` to now; any lookup failure is returned to the caller. -/
def touchByAddressInner (fsc : FunctionServiceCache) (address : String)
    (now : Int) : FunctionServiceCache × Option FError :=
  match cacheGet fsc.byAddress address with
  | Except.error e => (fsc, some e)
  | Except.ok m =>
    match cacheGet fsc.byFunction (CacheKey m) with
    | Except.error e => (fsc, some e)
    | Except.ok p =>
      match fsc.heap.read p with
      | none => (fsc, some ⟨ErrorCode.ErrorInternal, "dangling pointer"⟩)
      | some f => ({ fsc with heap := fsc.heap.write p { f with atime := now } }, none)

/-- `TouchByAddress` submits a TOUCH request to the Serializer and waits for
the response.  The TOUCH branch of `service()` always answers (it never exits
the loop), so the round trip is the synchronous application of
`touchByAddressInner`. -/
def TouchByAddress (fsc : FunctionServiceCache) (address : String)
    (now : Int) : FunctionServiceCache × Option FError :=
  touchByAddressInner fsc address now

/-- `GetByFunction`: O(1) lookup through `byFunction`, refresh of the cached
record's `Atime` through the shared pointer, then return of a pointer to a
fresh value copy (`fsvcCopy := *fsvc; return &fsvcCopy`). -/
def GetByFunction (fsc : FunctionServiceCache) (m : ObjectMeta)
    (now : Int) : FunctionServiceCache × Except FError Nat :=
  match cacheGet fsc.byFunction (CacheKey m) with
  | Except.error e => (fsc, Except.error e)
  | Except.ok p =>
    match fsc.heap.read p with
    | none => (fsc, Except.error ⟨ErrorCode.ErrorInternal, "dangling pointer"⟩)
    | some f =>
      let f' := { f with atime := now }
      let h1 := fsc.heap.write p f'
      let (h2, q) := h1.alloc f'
      ({ fsc with heap := h2 }, Except.ok q)

/-- `GetByFunctionUID`: two-hop lookup `byFunctionUID → byFunction`, then the
same refresh-and-copy as `GetByFunction`. -/
def GetByFunctionUID (fsc : FunctionServiceCache) (uid : String)
    (now : Int) : FunctionServiceCache × Except FError Nat :=
  match cacheGet fsc.byFunctionUID uid with
  | Except.error e => (fsc, Except.error e)
  | Except.ok m =>
    match cacheGet fsc.byFunction (CacheKey m) with
    | Except.error e => (fsc, Except.error e)
    | Except.ok p =>
      match fsc.heap.read p with
      | none => (fsc, Except.error ⟨ErrorCode.ErrorInternal, "dangling pointer"⟩)
      | some f =>
        let f' := { f with atime := now }
        let h1 := fsc.heap.write p f'
        let (h2, q) := h1.alloc f'
        ({ fsc with heap := h2 }, Except.ok q)

/-- `Add`: insert into `byFunction`; on `NameExists` return the existing
record after an implicit `TouchByAddress` on its address; on fresh insert set
`Ctime = Atime = now` through the stored pointer and upsert the two secondary
indices, where `NameExists` is swallowed (issue #331) — note that a collision
on `byAddress` makes the Go code return before it ever touches
`byFunctionUID`.  The result mirrors Go's `(*FuncSvc, error)`: an optional
returned pointer and an optional error. -/
def Add (fsc : FunctionServiceCache) (fsvc : FuncSvc) (now : Int) :
    FunctionServiceCache × Option Nat × Option FError :=
  -- Go receives `fsvc` by value; `&fsvc` below is the address of that copy.
  let (h1, p) := fsc.heap.alloc fsvc
  let fsc1 := { fsc with heap := h1 }
  match cacheSet fsc1.byFunction (CacheKey (fnMeta fsvc)) p with
  | (existing, _, some e) =>
    if IsNameExistError e then
      match existing with
      | some q =>
        match h1.read q with
        | none => (fsc1, none, some ⟨ErrorCode.ErrorInternal, "dangling pointer"⟩)
        | some f =>
          match TouchByAddress fsc1 f.address now with
          | (fsc2, some err2) => (fsc2, none, some err2)
          | (fsc2, none) =>
            -- fCopy := *f, read through the pointer after the touch
            match fsc2.heap.read q with
            | none => (fsc2, none, some ⟨ErrorCode.ErrorInternal, "dangling pointer"⟩)
            | some fPost =>
              let (h3, r) := fsc2.heap.alloc fPost
              ({ fsc2 with heap := h3 }, some r, none)
      | none => (fsc1, none, some ⟨ErrorCode.ErrorInternal, "nil existing"⟩)
    else (fsc1, none, some e)
  | (_, byFn1, none) =>
    let h2 := h1.write p { fsvc with ctime := now, atime := now }
    let fsc2 := { fsc1 with heap := h2, byFunction := byFn1 }
    match cacheSet fsc2.byAddress fsvc.address (fnMeta fsvc) with
    | (_, _, some e) =>
      if IsNameExistError e then (fsc2, none, none) else (fsc2, none, some e)
    | (_, byAddr1, none) =>
      let fsc3 := { fsc2 with byAddress := byAddr1 }
      match cacheSet fsc3.byFunctionUID (fnMeta fsvc).uid (fnMeta fsvc) with
      | (_, _, some e) =>
        if IsNameExistError e then (fsc3, none, none) else (fsc3, none, some e)
      | (_, byUID1, none) =>
        ({ fsc3 with byFunctionUID := byUID1 }, none, none)

/-- `DeleteEntry`: attempt removal from each of the three indices in turn,
logging (not propagating) each per-index failure, then observe the lifetime
`Atime - Ctime` (seconds) on the `FuncRunningSummary` metric.  The metric sink
is modelled as the list of observed values. -/
def DeleteEntry (fsc : FunctionServiceCache) (fsvc : FuncSvc) :
    FunctionServiceCache × List Int :=
  let (byFn1, _e1) := cacheDelete fsc.byFunction (CacheKey (fnMeta fsvc))
  let (byAddr1, _e2) := cacheDelete fsc.byAddress fsvc.address
  let (byUID1, _e3) := cacheDelete fsc.byFunctionUID (fnMeta fsvc).uid
  ({ fsc with byFunction := byFn1, byAddress := byAddr1, byFunctionUID := byUID1 },
   [fsvc.atime - fsvc.ctime])

/-- `DeleteOld`: below `minAge` of idleness nothing happens and `false` is
returned; otherwise the entry is removed via `DeleteEntry` (which observes the
metric) and `true` is returned.  The error result is always nil in the
source. -/
def DeleteOld (fsc : FunctionServiceCache) (fsvc : FuncSvc) (minAge : Int)
    (now : Int) : FunctionServiceCache × List Int × Bool × Option FError :=
  if now - fsvc.atime < minAge then (fsc, [], false, none)
  else
    let (fsc1, obs) := DeleteEntry fsc fsvc
    (fsc1, obs, true, none)

/-- The empty pool-cache group. -/
def emptyGroup : FnSvcGroup :=
  { svcWaiting := 0, queueLen := 0, svcs := [] }

/-- Modelled from the spec: `PoolCache.SetSvcValue` — idempotent
insert/update of the entry for `(key, address)`; the waiter hand-off is a
concurrency feature with no effect on the stored record and is not
modelled. -/
def setSvcValue (pc : PoolCache) (key : String) (addr : String)
    (fsvc : FuncSvc) (cpuLimit : String) : PoolCache :=
  let g := (alookup key pc).getD emptyGroup
  let old := alookup addr g.svcs
  let entry : PoolEntry :=
    { val := fsvc
      activeRequests := (old.map PoolEntry.activeRequests).getD 0
      currentCPUUsage := (old.map PoolEntry.currentCPUUsage).getD ""
      cpuLimit := cpuLimit }
  aupsert key { g with svcs := aupsert addr entry g.svcs } pc

/-- First pool entry whose `activeRequests` is under the per-pod budget. -/
def findAvailEntry (rpp : Int) :
    List (String × PoolEntry) → Option (String × PoolEntry)
  | [] => none
  | (a, e) :: rest =>
    if e.activeRequests < rpp then some (a, e) else findAvailEntry rpp rest

/-- Modelled from the spec: `PoolCache.GetSvcValue` — scan the group for an
entry with spare budget; on success increment `activeRequests` and refresh the
record's `Atime`; otherwise report `NotFound` (signalling the caller to
specialize; the blocking wait-queue branch is a concurrency feature and is not
modelled). -/
def getSvcValue (pc : PoolCache) (key : String) (rpp : Int) (now : Int) :
    PoolCache × Except FError FuncSvc :=
  match alookup key pc with
  | none => (pc, Except.error ⟨ErrorCode.ErrorNotFound, key⟩)
  | some g =>
    match findAvailEntry rpp g.svcs with
    | none => (pc, Except.error ⟨ErrorCode.ErrorNotFound, key⟩)
    | some (addr, e) =>
      let e1 := { e with activeRequests := e.activeRequests + 1
                         val := { e.val with atime := now } }
      (aupsert key { g with svcs := aupsert addr e1 g.svcs } pc, Except.ok e1.val)

/-- Modelled from the spec: `PoolCache.ListAvailableValue` — every entry
across all groups with `activeRequests == 0`. -/
def listAvailableValue (pc : PoolCache) : List FuncSvc :=
  pc.flatMap (fun g =>
    (g.2.svcs.filter (fun ae => ae.2.activeRequests == 0)).map (fun ae => ae.2.val))

/-- Modelled from the spec: `PoolCache.GetFnSvcGroup` — a snapshot of all
groups for diagnostic dumping. -/
def getFnSvcGroup (pc : PoolCache) : List FnSvcGroup :=
  pc.map Prod.snd

/-- `AddFunc` passes `&fsvc` (the address of its by-value argument) to
`SetSvcValue` and then assigns `Ctime = Atime = now` through that very
pointer, so the record the pool ends up holding carries both timestamps. -/
def AddFunc (fsc : FunctionServiceCache) (fsvc : FuncSvc) (now : Int) :
    FunctionServiceCache :=
  let stored := { fsvc with ctime := now, atime := now }
  let pc1 := setSvcValue fsc.connFunctionCache (CacheKey (fnMeta fsvc)) fsvc.address stored fsvc.cpuLimit
  { fsc with connFunctionCache := pc1 }

/-- `GetFuncSvc`: pool lookup; on success Go re-assigns `Atime = now` through
the returned pool pointer (already done by `getSvcValue`'s refresh, at the
same `now`) and hands the caller a value copy. -/
def GetFuncSvc (fsc : FunctionServiceCache) (m : ObjectMeta) (rpp : Int)
    (now : Int) : FunctionServiceCache × Except FError FuncSvc :=
  let (pc1, r) := getSvcValue fsc.connFunctionCache (CacheKey m) rpp now
  ({ fsc with connFunctionCache := pc1 }, r)

/-- FunctionServiceCache Request Types. -/
inductive FscRequestType where
  | TOUCH
  | LISTOLD
  | LOG
  | LISTOLDPOOL
deriving DecidableEq, Repr

/-- A request sent over the Serializer's channel. -/
structure FscRequest where
  requestType : FscRequestType
  address : String := ""
  age : Int := 0
deriving DecidableEq, Repr

/-- The Serializer's response: the gathered records (Go sends pointers; the
claims below only inspect values, so values are carried) and the error. -/
structure FscResponse where
  objects : List FuncSvc := []
  error : Option FError := none
deriving DecidableEq, Repr

/-- The LISTOLD loop body of `service()`: walk the `byFunctionUID` snapshot,
dereference each entry into `byFunction` and gather records idle longer than
`age`.  A failing dereference makes `service()` execute a bare `return`,
which exits the request loop without answering — modelled as `none`. -/
def listOldScan (fsc : FunctionServiceCache) (age : Int) (now : Int) :
    List (String × ObjectMeta) → List FuncSvc → Option (List FuncSvc)
  | [], acc => some acc
  | (_, m) :: rest, acc =>
    match cacheGet fsc.byFunction (CacheKey m) with
    | Except.error _ => none
    | Except.ok p =>
      match fsc.heap.read p with
      | none => none
      | some fsvc =>
        if now - fsvc.atime > age then listOldScan fsc age now rest (acc ++ [fsvc])
        else listOldScan fsc age now rest acc

/-- One iteration of `service()`: handle a single request.  `some` carries the
updated state and the response sent on the response channel; `none` means the
handler executed `return`, the goroutine exited and no response was ever
sent. -/
def serviceHandle (fsc : FunctionServiceCache) (req : FscRequest)
    (now : Int) : Option (FunctionServiceCache × FscResponse) :=
  match req.requestType with
  | FscRequestType.TOUCH =>
    let (fsc1, e) := touchByAddressInner fsc req.address now
    some (fsc1, { objects := [], error := e })
  | FscRequestType.LISTOLD =>
    match listOldScan fsc req.age now fsc.byFunctionUID [] with
    | none => none
    | some objs => some (fsc, { objects := objs, error := none })
  | FscRequestType.LOG =>
    -- diagnostic logging only; the cache state is untouched
    some (fsc, { objects := [], error := none })
  | FscRequestType.LISTOLDPOOL =>
    let avail := listAvailableValue fsc.connFunctionCache
    some (fsc, { objects := avail.filter (fun f => decide (now - f.atime > req.age)),
                 error := none })

/-- Run the Serializer over a request sequence.  Once a handler kills the
loop (`none`), no later request is ever answered: the goroutine is gone and
every subsequent sender blocks forever on the unbuffered channel. -/
def runService (fsc : FunctionServiceCache) (now : Int) :
    List FscRequest → List FscResponse
  | [] => []
  | req :: rest =>
    match serviceHandle fsc req now with
    | none => []
    | some (fsc1, resp) => resp :: runService fsc1 now rest

/-- `ListOld`: submit a LISTOLD request and wait for the response; `none`
means the response never arrives (the Serializer died mid-scan). -/
def ListOld (fsc : FunctionServiceCache) (age : Int) (now : Int) :
    Option (FunctionServiceCache × List FuncSvc × Option FError) :=
  (serviceHandle fsc { requestType := FscRequestType.LISTOLD, age := age } now).map
    (fun fr => (fr.1, fr.2.objects, fr.2.error))

/-- `ListOldForPool`: submit a LISTOLDPOOL request and wait. -/
def ListOldForPool (fsc : FunctionServiceCache) (age : Int) (now : Int) :
    Option (FunctionServiceCache × List FuncSvc × Option FError) :=
  (serviceHandle fsc { requestType := FscRequestType.LISTOLDPOOL, age := age } now).map
    (fun fr => (fr.1, fr.2.objects, fr.2.error))

/-- The dump directory (`path` constant in the source). -/
def dumpDir : String :=
  "/tmp"

/-- The dump file prefix (`fileName` constant in the source). -/
def dumpFilePrefix : String :=
  "dump"

/-- The filesystem seen by `dumpData`: path → lines. -/
abbrev FileSystem : Type :=
  List (String × List String)

/-- The first hyphen-separated component of a UUID string
(Go: `strings.Split(uid.String(), "-")[0]`, which is the prefix of the
string up to the first hyphen). -/
def uuidFirstComponent (uid : String) : String :=
  String.mk (uid.data.takeWhile (fun c => c != '-'))

/-- The dump file name: `/tmp/dump_<first uuid component>.txt`. -/
def dumpFileName (uid : String) : String :=
  dumpDir ++ "/" ++ dumpFilePrefix ++ "_" ++ uuidFirstComponent uid ++ ".txt"

/-- `dumpData`: ensure the dump directory exists (directory creation always
succeeds in this filesystem model), then `os.Create` the uniquely named file —
creating it, or truncating an existing file of the same name — and write the
lines.  The random UUID is supplied by the caller (`uuid.NewV4` reads OS
randomness). -/
def dumpData (fs : FileSystem) (dirExists : Bool) (uid : String)
    (data : List String) : FileSystem × Option FError :=
  let writeData := fun (fs1 : FileSystem) =>
    (aupsert (dumpFileName uid) data fs1, (none : Option FError))
  if dirExists then writeData fs
  else writeData fs

/-- One dumped line fragment per pool entry. -/
def entryPart (addr : String) (e : PoolEntry) : String :=
  "\tfunction_name:" ++ (fnMeta e.val).name ++ "\tfn_svc_address:" ++ addr ++
    "\tcurrent_cpu_usage:" ++ e.currentCPUUsage ++ "\tcpu_limit:" ++ e.cpuLimit

/-- The single line `DumpFnSvcCache` emits for one group: the group header
followed by one fragment per entry (entry order follows the model's map
order; Go map iteration order is unspecified). -/
def groupLine (g : FnSvcGroup) : String :=
  g.svcs.foldl (fun data ae => data ++ entryPart ae.1 ae.2)
    ("svc_waiting:" ++ toString g.svcWaiting ++ "\tqueue_len:" ++ toString g.queueLen)

/-- `DumpFnSvcCache`: snapshot the pool groups; an empty snapshot returns
`NotFound` without touching the filesystem; otherwise one line per group is
written to a fresh dump file. -/
def DumpFnSvcCache (fsc : FunctionServiceCache) (fs : FileSystem)
    (dirExists : Bool) (uid : String) : FileSystem × Option FError :=
  let fnSvcGroup := getFnSvcGroup fsc.connFunctionCache
  if fnSvcGroup.length = 0 then
    (fs, some ⟨ErrorCode.ErrorNotFound, "function service not found"⟩)
  else
    dumpData fs dirExists uid (fnSvcGroup.map groupLine)

/-- An OpenTelemetry-style key-value attribute (string-valued). -/
structure KeyValue where
  key : String
  value : String
deriving DecidableEq, Repr

/-- `GetAttributesForFuncSvc`: telemetry attributes of a function service.
The input is the Go `*FuncSvc` (nilable). -/
def GetAttributesForFuncSvc (fsvcO : Option FuncSvc) : List KeyValue :=
  match fsvcO with
  | none => []
  | some fsvc =>
    let attrs : List KeyValue := []
    let attrs := match fsvc.function with
      | some m =>
        attrs ++ [⟨"function-name", m.name⟩, ⟨"function-namespace", m.nspace⟩]
      | none => attrs
    let attrs := match fsvc.environment with
      | some e =>
        attrs ++ [⟨"environment-name", e.name⟩, ⟨"environment-namespace", e.nspace⟩]
      | none => attrs
    let attrs := if fsvc.address ≠ "" then attrs ++ [⟨"address", fsvc.address⟩] else attrs
    attrs

/-- The cache operations claim C9 quantifies over; each run step pairs an
operation with the wall-clock time at which it executes. -/
inductive CacheOp where
  | add (fsvc : FuncSvc)
  | addFunc (fsvc : FuncSvc)
  | getByFunction (m : ObjectMeta)
  | getByFunctionUID (uid : String)
  | touchByAddress (address : String)
  | getFuncSvc (m : ObjectMeta) (rpp : Int)

/-- Apply one operation to the cache, discarding the value returned to the
caller. -/
def stepOp (fsc : FunctionServiceCache) (op : CacheOp) (now : Int) :
    FunctionServiceCache :=
  match op with
  | CacheOp.add fsvc => (Add fsc fsvc now).1
  | CacheOp.addFunc fsvc => AddFunc fsc fsvc now
  | CacheOp.getByFunction m => (GetByFunction fsc m now).1
  | CacheOp.getByFunctionUID uid => (GetByFunctionUID fsc uid now).1
  | CacheOp.touchByAddress a => (TouchByAddress fsc a now).1
  | CacheOp.getFuncSvc m rpp => (GetFuncSvc fsc m rpp now).1

/-- Run a timed operation sequence. -/
def runOps (fsc : FunctionServiceCache) : List (CacheOp × Int) → FunctionServiceCache
  | [] => fsc
  | (op, t) :: rest => runOps (stepOp fsc op t) rest

/-- The pool-cache records, as a flat list. -/
def poolVals (pc : PoolCache) : List FuncSvc :=
  pc.flatMap (fun g => g.2.svcs.map (fun ae => ae.2.val))

/-- Every `FuncSvc` record reachable in the cache: the records the
`byFunction` pointers dereference to, plus the pool-cache entries. -/
def cachedFuncSvcs (fsc : FunctionServiceCache) : List FuncSvc :=
  fsc.byFunction.filterMap (fun kp => fsc.heap.read kp.2) ++
    poolVals fsc.connFunctionCache

/-- The inductive invariant behind claim C9: the heap is well formed, every
`byFunction` pointer lies below the allocation frontier, and every reachable
record satisfies `Ctime ≤ Atime ≤ t` for the current clock `t`. -/
def TimeInv (fsc : FunctionServiceCache) (t : Int) : Prop :=
  fsc.heap.WF ∧ (∀ kp ∈ fsc.byFunction, kp.2 < fsc.heap.next) ∧
    ∀ f ∈ cachedFuncSvcs fsc, f.ctime ≤ f.atime ∧ f.atime ≤ t

/-- The `FuncSvc` value a `GetByFunction` lookup hands its caller (the record
behind the returned pointer), used to state value-independence (C4). -/
def lookupVal (fsc : FunctionServiceCache) (m : ObjectMeta) (now : Int) :
    Option FuncSvc :=
  match GetByFunction fsc m now with
  | (fsc1, Except.ok q) => fsc1.heap.read q
  | _ => none

/-- Same as `lookupVal`, for `GetByFunctionUID`. -/
def lookupValByUID (fsc : FunctionServiceCache) (uid : String) (now : Int) :
    Option FuncSvc :=
  match GetByFunctionUID fsc uid now with
  | (fsc1, Except.ok q) => fsc1.heap.read q
  | _ => none

/-! ### Concrete fixtures for witnesses and counterexamples -/

/-- A concrete function identity. -/
def exMeta1 : ObjectMeta :=
  ⟨"f1", "ns", "u1", "v1"⟩

/-- A second function identity (different key and UID). -/
def exMeta2 : ObjectMeta :=
  ⟨"f2", "ns", "u2", "v1"⟩

/-- A concrete function service for `exMeta1`. -/
def exSvc1 : FuncSvc :=
  { name := "f1", function := some exMeta1, environment := none
    address := "10.0.0.1:8080", kubernetesObjects := [], cpuLimit := ""
    ctime := 0, atime := 0 }

/-- A service for `exMeta2` sharing `exSvc1`'s address (multiple
specialization). -/
def exSvc2 : FuncSvc :=
  { exSvc1 with name := "f2", function := some exMeta2 }

/-- The cache after a single fresh `Add` of `exSvc1` at time 10. -/
def exSt1 : FunctionServiceCache :=
  (Add emptyFsc exSvc1 10).1

/-- A cache whose UID index holds a dangling reference: `byFunctionUID` maps
`u1` to `exMeta1` but `byFunction` has no entry for `exMeta1`'s key. -/
def fscDangling : FunctionServiceCache :=
  { emptyFsc with byFunctionUID := [("u1", exMeta1)] }

/-- `exSt1` with its address index emptied: the record for `exMeta1` is still
in `byFunction`, but its address dangles. -/
def exStNoAddr : FunctionServiceCache :=
  { exSt1 with byAddress := [] }

/-- A service whose `Function` pointer is non-nil but carries empty name and
namespace, and whose address is empty. -/
def exSvcEmptyNames : FuncSvc :=
  { exSvc1 with function := some ⟨"", "", "", ""⟩, address := "" }

/-- A one-group pool cache for the dump fixtures. -/
def exPool : PoolCache :=
  [("ns_f1_v1",
    { svcWaiting := 1, queueLen := 0
      svcs := [("10.0.0.1:8080",
        { val := exSvc1, activeRequests := 0
          currentCPUUsage := "100m", cpuLimit := "200m" })] })]

/-- A cache whose pool holds `exPool`. -/
def exFscPool : FunctionServiceCache :=
  { emptyFsc with connFunctionCache := exPool }

/-- A canonical random UUID string for the dump fixtures. -/
def exUuid : String :=
  "718b5b6e-9c6d-4aaa-8aaa-123456789abc"

/-! ### Association-list and heap lemmas -/

theorem alookup_some_mem [DecidableEq κ] {k : κ} {v : α} :
    ∀ {l : List (κ × α)}, alookup k l = some v → (k, v) ∈ l := by
  intro l
  induction l with
  | nil => intro h; simp [alookup] at h
  | cons hd tl ih =>
    obtain ⟨a, b⟩ := hd
    intro h
    by_cases hak : a = k
    · subst hak
      simp [alookup] at h
      simp [h]
    · simp [alookup, hak] at h
      exact List.mem_cons_of_mem _ (ih h)

theorem alookup_awrite_self [DecidableEq κ] (k : κ) (v : α) (l : List (κ × α)) :
    alookup k (awrite k v l) = (alookup k l).map (fun _ => v) := by
  induction l with
  | nil => simp [alookup, awrite]
  | cons hd tl ih =>
    obtain ⟨a, b⟩ := hd
    by_cases hak : a = k
    · subst hak; simp [alookup, awrite]
    · simp [alookup, awrite, hak, ih]

theorem alookup_awrite_of_ne [DecidableEq κ] {k k' : κ} (h : k' ≠ k) (v : α)
    (l : List (κ × α)) : alookup k' (awrite k v l) = alookup k' l := by
  induction l with
  | nil => simp [awrite]
  | cons hd tl ih =>
    obtain ⟨a, b⟩ := hd
    by_cases hak : a = k
    · subst hak
      simp [alookup, awrite, Ne.symm h, ih]
    · by_cases hak' : a = k'
      · subst hak'; simp [alookup, awrite, hak]
      · simp [alookup, awrite, hak, hak', ih]

theorem mem_awrite [DecidableEq κ] {x : κ × α} {k : κ} {v : α} :
    ∀ {l : List (κ × α)}, x ∈ awrite k v l →
      (x = (k, v) ∧ ∃ b, (k, b) ∈ l) ∨ x ∈ l := by
  intro l
  induction l with
  | nil => intro h; simp [awrite] at h
  | cons hd tl ih =>
    obtain ⟨a, b⟩ := hd
    intro h
    by_cases hak : a = k
    · subst hak
      simp [awrite] at h
      rcases h with h | h
      · left
        exact ⟨by simp [h], b, List.mem_cons_self _ _⟩
      · rcases ih h with ⟨h1, b', hb'⟩ | h1
        · left; exact ⟨h1, b', List.mem_cons_of_mem _ hb'⟩
        · right; exact List.mem_cons_of_mem _ h1
    · simp [awrite, hak] at h
      rcases h with h | h
      · right; simp [h]
      · rcases ih h with ⟨h1, b', hb'⟩ | h1
        · left; exact ⟨h1, b', List.mem_cons_of_mem _ hb'⟩
        · right; exact List.mem_cons_of_mem _ h1

theorem alookup_aerase_self [DecidableEq κ] (k : κ) (l : List (κ × α)) :
    alookup k (aerase k l) = none := by
  induction l with
  | nil => simp [alookup, aerase]
  | cons hd tl ih =>
    obtain ⟨a, b⟩ := hd
    by_cases hak : a = k
    · subst hak; simp [aerase, ih]
    · simp [alookup, aerase, hak, ih]

theorem alookup_aerase_of_ne [DecidableEq κ] {k k' : κ} (h : k' ≠ k)
    (l : List (κ × α)) : alookup k' (aerase k l) = alookup k' l := by
  induction l with
  | nil => simp [aerase]
  | cons hd tl ih =>
    obtain ⟨a, b⟩ := hd
    by_cases hak : a = k
    · subst hak
      simp [alookup, aerase, Ne.symm h, ih]
    · by_cases hak' : a = k'
      · subst hak'; simp [alookup, aerase, hak]
      · simp [alookup, aerase, hak, hak', ih]

theorem aerase_of_alookup_none [DecidableEq κ] {k : κ} :
    ∀ {l : List (κ × α)}, alookup k l = none → aerase k l = l := by
  intro l
  induction l with
  | nil => intro _; rfl
  | cons hd tl ih =>
    obtain ⟨a, b⟩ := hd
    intro h
    by_cases hak : a = k
    · subst hak; simp [alookup] at h
    · simp [alookup, hak] at h
      simp [aerase, hak, ih h]

theorem cacheDelete_fst (c : List (String × α)) (k : String) :
    (cacheDelete c k).1 = aerase k c := by
  unfold cacheDelete
  cases h : alookup k c with
  | none => simp [aerase_of_alookup_none h]
  | some v => simp

theorem alookup_aupsert_self [DecidableEq κ] (k : κ) (v : α) (l : List (κ × α)) :
    alookup k (aupsert k v l) = some v := by
  induction l with
  | nil => simp [alookup, aupsert]
  | cons hd tl ih =>
    obtain ⟨a, b⟩ := hd
    by_cases hak : a = k
    · subst hak; simp [alookup, aupsert]
    · simp [alookup, aupsert, hak, ih]

theorem alookup_aupsert_of_ne [DecidableEq κ] {k k' : κ} (h : k' ≠ k) (v : α)
    (l : List (κ × α)) : alookup k' (aupsert k v l) = alookup k' l := by
  induction l with
  | nil => simp [alookup, aupsert, Ne.symm h]
  | cons hd tl ih =>
    obtain ⟨a, b⟩ := hd
    by_cases hak : a = k
    · subst hak
      simp [alookup, aupsert, Ne.symm h]
    · by_cases hak' : a = k'
      · subst hak'; simp [alookup, aupsert, hak]
      · simp [alookup, aupsert, hak, hak', ih]

theorem mem_aupsert [DecidableEq κ] {x : κ × α} {k : κ} {v : α} :
    ∀ {l : List (κ × α)}, x ∈ aupsert k v l → x = (k, v) ∨ x ∈ l := by
  intro l
  induction l with
  | nil => intro h; simp [aupsert] at h; left; exact h
  | cons hd tl ih =>
    obtain ⟨a, b⟩ := hd
    intro h
    by_cases hak : a = k
    · subst hak
      simp [aupsert] at h
      rcases h with h | h
      · left; simp [h]
      · right; exact List.mem_cons_of_mem _ h
    · simp [aupsert, hak] at h
      rcases h with h | h
      · right; simp [h]
      · rcases ih h with h1 | h1
        · left; exact h1
        · right; exact List.mem_cons_of_mem _ h1

theorem Heap.read_write_self (h : Heap) (p : Nat) (v : FuncSvc) :
    (h.write p v).read p = (h.read p).map (fun _ => v) := by
  unfold Heap.read Heap.write
  exact alookup_awrite_self p v h.cells

theorem Heap.read_write_of_ne (h : Heap) {p p' : Nat} (hne : p' ≠ p)
    (v : FuncSvc) : (h.write p v).read p' = h.read p' := by
  unfold Heap.read Heap.write
  exact alookup_awrite_of_ne hne v h.cells

theorem Heap.read_alloc_self (h : Heap) (v : FuncSvc) :
    ((h.alloc v).1).read (h.alloc v).2 = some v := by
  simp [Heap.alloc, Heap.read, alookup]

theorem Heap.read_lt_next {h : Heap} {p : Nat} {f : FuncSvc}
    (hwf : h.WF) (hr : h.read p = some f) : p < h.next :=
  hwf (p, f) (alookup_some_mem hr)

theorem Heap.read_alloc_of_lt {h : Heap} {p : Nat} (hlt : p < h.next)
    (v0 : FuncSvc) : ((h.alloc v0).1).read p = h.read p := by
  simp [Heap.alloc, Heap.read, alookup, Nat.ne_of_gt hlt]

theorem Heap.read_alloc_of_wf {h : Heap} {p : Nat} {f : FuncSvc}
    (hwf : h.WF) (hr : h.read p = some f) (v : FuncSvc) :
    ((h.alloc v).1).read p = some f := by
  rw [Heap.read_alloc_of_lt (Heap.read_lt_next hwf hr)]
  exact hr

theorem Heap.alloc_wf {h : Heap} (hwf : h.WF) (v : FuncSvc) :
    ((h.alloc v).1).WF := by
  intro c hc
  simp [Heap.alloc] at hc
  rcases hc with hc | hc
  · simp [hc, Heap.alloc]
  · exact Nat.lt_trans (hwf c hc) (Nat.lt_succ_self _)

theorem Heap.write_wf {h : Heap} (hwf : h.WF) (p : Nat) (v : FuncSvc) :
    (h.write p v).WF := by
  intro c hc
  rcases mem_awrite hc with ⟨hc1, b, hb⟩ | hc1
  · subst hc1
    exact hwf (p, b) hb
  · exact hwf c hc1

theorem Heap.alloc_next (h : Heap) (v : FuncSvc) :
    ((h.alloc v).1).next = h.next + 1 := rfl

theorem Heap.write_next (h : Heap) (p : Nat) (v : FuncSvc) :
    (h.write p v).next = h.next := rfl

/-- `DeleteEntry` as the three independent erasures plus the single metric
observation, shared by the C5 and C7 developments. -/
theorem deleteEntry_eq (fsc : FunctionServiceCache) (fsvc : FuncSvc) :
    DeleteEntry fsc fsvc =
      ({ fsc with
          byFunction := aerase (CacheKey (fnMeta fsvc)) fsc.byFunction
          byAddress := aerase fsvc.address fsc.byAddress
          byFunctionUID := aerase (fnMeta fsvc).uid fsc.byFunctionUID },
        [fsvc.atime - fsvc.ctime]) := by
  unfold DeleteEntry
  simp only [cacheDelete_fst]

/-! ### Claim C5 -/

/-- C5: `DeleteEntry(f)` attempts removal of `f` from each of the three
indices independently — the resulting indices are exactly the erasures of
`f`'s key, address and UID, whatever succeeded or failed, and afterwards none
of the three keys is bound — never surfaces an error to the caller (its
result type carries none; per-index failures are only logged), and always
observes the lifetime `Atime - Ctime` in seconds on the `FuncRunningSummary`
metric. -/
theorem C5_deleteEntry_independent_and_observed
    (fsc : FunctionServiceCache) (fsvc : FuncSvc) :
    DeleteEntry fsc fsvc =
      ({ fsc with
          byFunction := aerase (CacheKey (fnMeta fsvc)) fsc.byFunction
          byAddress := aerase fsvc.address fsc.byAddress
          byFunctionUID := aerase (fnMeta fsvc).uid fsc.byFunctionUID },
        [fsvc.atime - fsvc.ctime]) ∧
    alookup (CacheKey (fnMeta fsvc)) (DeleteEntry fsc fsvc).1.byFunction = none ∧
    alookup fsvc.address (DeleteEntry fsc fsvc).1.byAddress = none ∧
    alookup (fnMeta fsvc).uid (DeleteEntry fsc fsvc).1.byFunctionUID = none := by
  have h1 := deleteEntry_eq fsc fsvc
  refine ⟨h1, ?_, ?_, ?_⟩ <;> rw [h1] <;> exact alookup_aerase_self _ _

/-! ### Claim C7 -/

/-- C7: for every `FuncSvc` and `minAge`, if the idle time `now - Atime` is
below `minAge` then `DeleteOld` returns `(false, nil)` and removes nothing;
otherwise it returns `(true, nil)`, leaves none of the three indices binding
the record's key, address or UID, and observes the lifetime on the
`FuncRunningSummary` metric. -/
theorem C7_deleteOld_age_threshold (fsc : FunctionServiceCache)
    (fsvc : FuncSvc) (minAge now : Int) :
    (now - fsvc.atime < minAge →
      DeleteOld fsc fsvc minAge now = (fsc, [], false, none)) ∧
    (minAge ≤ now - fsvc.atime →
      (DeleteOld fsc fsvc minAge now).2.2 = (true, none) ∧
      (DeleteOld fsc fsvc minAge now).2.1 = [fsvc.atime - fsvc.ctime] ∧
      alookup (CacheKey (fnMeta fsvc))
        (DeleteOld fsc fsvc minAge now).1.byFunction = none ∧
      alookup fsvc.address (DeleteOld fsc fsvc minAge now).1.byAddress = none ∧
      alookup (fnMeta fsvc).uid
        (DeleteOld fsc fsvc minAge now).1.byFunctionUID = none) := by
  constructor
  · intro h
    simp [DeleteOld, h]
  · intro h
    have hnot : ¬ now - fsvc.atime < minAge := not_lt.mpr h
    have hdel := deleteEntry_eq fsc fsvc
    have heq : DeleteOld fsc fsvc minAge now =
        ((DeleteEntry fsc fsvc).1, (DeleteEntry fsc fsvc).2, true, none) := by
      simp [DeleteOld, hnot]
    rw [heq, hdel]
    exact ⟨rfl, rfl, alookup_aerase_self _ _, alookup_aerase_self _ _,
      alookup_aerase_self _ _⟩

/-- Witness for C7 on a concrete aged entry: the record added at time 10 is
93 seconds idle at time 103, above the 60-second threshold. -/
theorem C7_deleteOld_age_threshold_witness :
    (DeleteOld exSt1 { exSvc1 with ctime := 10, atime := 10 } 60 103).2.2 =
      (true, none) ∧
    (DeleteOld exSt1 { exSvc1 with ctime := 10, atime := 10 } 60 103).2.1 = [0] := by
  have h := (C7_deleteOld_age_threshold exSt1
    { exSvc1 with ctime := 10, atime := 10 } 60 103).2 (by decide)
  exact ⟨h.1, h.2.1⟩

/-! ### Claim C1 -/

/-- A dangling UID-index entry anywhere in the scanned list makes the LISTOLD
loop abort via the bare `return`, whatever was gathered so far. -/
theorem listOldScan_none_of_dangling (fsc : FunctionServiceCache)
    (age now : Int) :
    ∀ (l : List (String × ObjectMeta)) (acc : List FuncSvc),
      (∃ um ∈ l, alookup (CacheKey um.2) fsc.byFunction = none) →
      listOldScan fsc age now l acc = none := by
  intro l
  induction l with
  | nil =>
    intro acc h
    simp at h
  | cons hd tl ih =>
    intro acc h
    obtain ⟨um, hmem, hum⟩ := h
    obtain ⟨u, m⟩ := hd
    rcases List.mem_cons.mp hmem with heq | hmemtl
    · subst heq
      simp only [listOldScan, cacheGet, hum]
    · cases hkey : alookup (CacheKey m) fsc.byFunction with
      | none => simp only [listOldScan, cacheGet, hkey]
      | some p =>
        cases hread : fsc.heap.read p with
        | none => simp only [listOldScan, cacheGet, hkey, hread]
        | some fsvc =>
          by_cases hage : now - fsvc.atime > age
          · simp only [listOldScan, cacheGet, hkey, hread, if_pos hage]
            exact ih _ ⟨um, hmemtl, hum⟩
          · simp only [listOldScan, cacheGet, hkey, hread, if_neg hage]
            exact ih _ ⟨um, hmemtl, hum⟩

/-- C1 (amended): when an entry of `byFunctionUID` refers to a function key
no longer present in `byFunction`, a ListOld scan is aborted by exiting the
Serializer's request loop entirely: the caller of `ListOld` never receives a
response (neither a result nor an error), and no subsequent Serializer
request — the aborted LISTOLD's or any later one — is ever answered. -/
theorem C1_dangling_aborts_serializer (fsc : FunctionServiceCache)
    (age now : Int)
    (hdangling : ∃ um ∈ fsc.byFunctionUID,
      alookup (CacheKey um.2) fsc.byFunction = none) :
    ListOld fsc age now = none ∧
    ∀ rest, runService fsc now
      ({ requestType := FscRequestType.LISTOLD, age := age } :: rest) = [] := by
  have hscan := listOldScan_none_of_dangling fsc age now fsc.byFunctionUID [] hdangling
  constructor
  · simp [ListOld, serviceHandle, hscan]
  · intro rest
    simp [runService, serviceHandle, hscan]

/-- C1 counterexample: with `byFunctionUID = [(u1, exMeta1)]` and an empty
`byFunction`, the `ListOld` caller gets no response at all (the claim says it
receives an error), and a following TOUCH, LISTOLDPOOL and LOG request are
all left unanswered (the claim says the cache continues to serve them). -/
theorem C1_counterexample :
    ListOld fscDangling 60 100 = none ∧
    runService fscDangling 100
      [{ requestType := FscRequestType.LISTOLD, age := 60 },
       { requestType := FscRequestType.TOUCH, address := "10.0.0.1:8080" },
       { requestType := FscRequestType.LISTOLDPOOL, age := 60 },
       { requestType := FscRequestType.LOG }] = [] := by
  exact ⟨rfl, rfl⟩

/-- Witness instantiating the amended C1 theorem at the concrete dangling
state. -/
theorem C1_dangling_aborts_serializer_witness :
    ListOld fscDangling 60 100 = none ∧
    runService fscDangling 100
      [{ requestType := FscRequestType.LISTOLD, age := 60 },
       { requestType := FscRequestType.LOG }] = [] := by
  have h := C1_dangling_aborts_serializer fscDangling 60 100
    ⟨("u1", exMeta1), by decide, by decide⟩
  exact ⟨h.1, h.2 [{ requestType := FscRequestType.LOG }]⟩

/-! ### Claim C8 -/

/-- C8 counterexample: a `FuncSvc` whose `Function` pointer is non-nil but
has an empty `Name` gets a `function-name` attribute with the empty string
as value — the empty sub-field is emitted with a default, not omitted. -/
theorem C8_counterexample :
    exSvcEmptyNames.function = some ⟨"", "", "", ""⟩ ∧
    KeyValue.mk "function-name" "" ∈
      GetAttributesForFuncSvc (some exSvcEmptyNames) := by
  exact ⟨rfl, by decide⟩

/-- C8 (amended): `GetAttributesForFuncSvc` emits only keys among
function-name, function-namespace, environment-name, environment-namespace
and address; a nil `fsvc` yields no attributes; a nil `Function`
(resp. `Environment`) pointer omits its two keys, and an empty `Address`
omits the address key; but when `Function` or `Environment` is non-nil its
name and namespace are always emitted, even when they are empty strings —
only nil pointers and the empty address are omitted, never empty
sub-fields of present structs. -/
theorem C8_attributes_amended (f : FuncSvc) :
    GetAttributesForFuncSvc none = [] ∧
    (∀ kv ∈ GetAttributesForFuncSvc (some f),
      kv.key = "function-name" ∨ kv.key = "function-namespace" ∨
      kv.key = "environment-name" ∨ kv.key = "environment-namespace" ∨
      kv.key = "address") ∧
    (∀ m, f.function = some m →
      KeyValue.mk "function-name" m.name ∈ GetAttributesForFuncSvc (some f) ∧
      KeyValue.mk "function-namespace" m.nspace ∈
        GetAttributesForFuncSvc (some f)) ∧
    (f.function = none →
      ∀ kv ∈ GetAttributesForFuncSvc (some f),
        kv.key ≠ "function-name" ∧ kv.key ≠ "function-namespace") ∧
    (∀ e, f.environment = some e →
      KeyValue.mk "environment-name" e.name ∈ GetAttributesForFuncSvc (some f) ∧
      KeyValue.mk "environment-namespace" e.nspace ∈
        GetAttributesForFuncSvc (some f)) ∧
    (f.environment = none →
      ∀ kv ∈ GetAttributesForFuncSvc (some f),
        kv.key ≠ "environment-name" ∧ kv.key ≠ "environment-namespace") ∧
    (f.address = "" →
      ∀ kv ∈ GetAttributesForFuncSvc (some f), kv.key ≠ "address") ∧
    (f.address ≠ "" →
      KeyValue.mk "address" f.address ∈ GetAttributesForFuncSvc (some f)) := by
  rcases hfo : f.function with _ | m <;>
    rcases heo : f.environment with _ | e <;>
      by_cases haddr : f.address = "" <;>
        simp [GetAttributesForFuncSvc, hfo, heo, haddr] <;>
          intro kv hkv <;> simp_all <;>
            rcases hkv with h | h <;> simp_all

/-- Witness instantiating the amended C8 theorem on a concrete service with a
present function, no environment, and a non-empty address. -/
theorem C8_attributes_amended_witness :
    KeyValue.mk "function-name" "f1" ∈ GetAttributesForFuncSvc (some exSvc1) ∧
    KeyValue.mk "address" exSvc1.address ∈ GetAttributesForFuncSvc (some exSvc1) := by
  have h := C8_attributes_amended exSvc1
  exact ⟨(h.2.2.1 exMeta1 (by decide)).1, h.2.2.2.2.2.2.2 (by decide)⟩

/-! ### Claim C3 -/

/-- C3 counterexample: after a fresh `Add` of `exSvc1` (address
10.0.0.1:8080), adding `exSvc2` — a different function key and UID at the
same address — returns `(nil, nil)` as the claim says, but `byFunctionUID`
is NOT populated at `exSvc2`'s UID: the `byAddress` collision made `Add`
return before touching the UID index. -/
theorem C3_counterexample :
    alookup (CacheKey (fnMeta exSvc2)) exSt1.byFunction = none ∧
    (Add exSt1 exSvc2 20).2 = (none, none) ∧
    alookup (fnMeta exSvc2).uid (Add exSt1 exSvc2 20).1.byFunctionUID = none := by
  exact ⟨by decide, by decide, by decide⟩

/-! ### Equation lemmas for the touch and lookup paths -/

theorem isNameExist_nameExists (msg : String) :
    IsNameExistError ⟨ErrorCode.ErrorNameExists, msg⟩ = true := rfl

theorem isNameExist_notFound (msg : String) :
    IsNameExistError ⟨ErrorCode.ErrorNotFound, msg⟩ = false := rfl

theorem touchByAddressInner_eq (fsc : FunctionServiceCache) (addr : String)
    (now : Int) {m' : ObjectMeta} {p : Nat} {f : FuncSvc}
    (haddr : alookup addr fsc.byAddress = some m')
    (hm : alookup (CacheKey m') fsc.byFunction = some p)
    (hread : fsc.heap.read p = some f) :
    touchByAddressInner fsc addr now =
      ({ fsc with heap := fsc.heap.write p { f with atime := now } }, none) := by
  unfold touchByAddressInner
  simp only [cacheGet, haddr, hm, hread]

theorem touchByAddressInner_eq_noAddr (fsc : FunctionServiceCache)
    (addr : String) (now : Int)
    (haddr : alookup addr fsc.byAddress = none) :
    touchByAddressInner fsc addr now =
      (fsc, some ⟨ErrorCode.ErrorNotFound, addr⟩) := by
  unfold touchByAddressInner
  simp only [cacheGet, haddr]

theorem touchByAddressInner_eq_noKey (fsc : FunctionServiceCache)
    (addr : String) (now : Int) {m' : ObjectMeta}
    (haddr : alookup addr fsc.byAddress = some m')
    (hm : alookup (CacheKey m') fsc.byFunction = none) :
    touchByAddressInner fsc addr now =
      (fsc, some ⟨ErrorCode.ErrorNotFound, CacheKey m'⟩) := by
  unfold touchByAddressInner
  simp only [cacheGet, haddr, hm]

theorem GetByFunction_eq (fsc : FunctionServiceCache) (m : ObjectMeta)
    (now : Int) {p : Nat} {f : FuncSvc}
    (hkey : alookup (CacheKey m) fsc.byFunction = some p)
    (hread : fsc.heap.read p = some f) :
    GetByFunction fsc m now =
      ({ fsc with heap :=
          ((fsc.heap.write p { f with atime := now }).alloc
            { f with atime := now }).1 },
        Except.ok (fsc.heap.write p { f with atime := now }).next) := by
  unfold GetByFunction
  simp only [cacheGet, hkey, hread]
  rfl

theorem GetByFunctionUID_eq (fsc : FunctionServiceCache) (uid : String)
    (now : Int) {m2 : ObjectMeta} {p : Nat} {f : FuncSvc}
    (huid : alookup uid fsc.byFunctionUID = some m2)
    (hkey : alookup (CacheKey m2) fsc.byFunction = some p)
    (hread : fsc.heap.read p = some f) :
    GetByFunctionUID fsc uid now =
      ({ fsc with heap :=
          ((fsc.heap.write p { f with atime := now }).alloc
            { f with atime := now }).1 },
        Except.ok (fsc.heap.write p { f with atime := now }).next) := by
  unfold GetByFunctionUID
  simp only [cacheGet, huid, hkey, hread]
  rfl

/-- Under the reachability hypotheses, a `GetByFunction` lookup hands its
caller exactly the cached record with its `Atime` refreshed. -/
theorem lookupVal_eq (fsc : FunctionServiceCache) (m : ObjectMeta)
    (now : Int) {p : Nat} {f : FuncSvc}
    (hkey : alookup (CacheKey m) fsc.byFunction = some p)
    (hread : fsc.heap.read p = some f) :
    lookupVal fsc m now = some { f with atime := now } := by
  unfold lookupVal
  rw [GetByFunction_eq fsc m now hkey hread]
  exact Heap.read_alloc_self _ _

/-- Under the reachability hypotheses, a `GetByFunctionUID` lookup hands its
caller exactly the cached record with its `Atime` refreshed. -/
theorem lookupValByUID_eq (fsc : FunctionServiceCache) (uid : String)
    (now : Int) {m2 : ObjectMeta} {p : Nat} {f : FuncSvc}
    (huid : alookup uid fsc.byFunctionUID = some m2)
    (hkey : alookup (CacheKey m2) fsc.byFunction = some p)
    (hread : fsc.heap.read p = some f) :
    lookupValByUID fsc uid now = some { f with atime := now } := by
  unfold lookupValByUID
  rw [GetByFunctionUID_eq fsc uid now huid hkey hread]
  exact Heap.read_alloc_self _ _

/-! ### Claim C2 -/

/-- C2: when the function key of `fsvc` is already bound to a record `f`
whose address resolves back to it (spec invariant 1), `Add` returns a copy of
the existing record — with the refreshed `Atime`, not the argument — leaves
all three indices exactly as they were (no overwrite), reports no error, and
performs the implicit touch: the cached record's `Atime` is set to now. -/
theorem C2_add_existing_returns_and_touches (fsc : FunctionServiceCache)
    (fsvc f : FuncSvc) (m' : ObjectMeta) (p : Nat) (now : Int)
    (hwf : fsc.heap.WF)
    (hkey : alookup (CacheKey (fnMeta fsvc)) fsc.byFunction = some p)
    (hread : fsc.heap.read p = some f)
    (haddr : alookup f.address fsc.byAddress = some m')
    (hm : alookup (CacheKey m') fsc.byFunction = some p) :
    ∃ r, (Add fsc fsvc now).2 = (some r, none) ∧
      (Add fsc fsvc now).1.heap.read r = some { f with atime := now } ∧
      (Add fsc fsvc now).1.heap.read p = some { f with atime := now } ∧
      (Add fsc fsvc now).1.byFunction = fsc.byFunction ∧
      (Add fsc fsvc now).1.byAddress = fsc.byAddress ∧
      (Add fsc fsvc now).1.byFunctionUID = fsc.byFunctionUID := by
  have hwf1 : (fsc.heap.alloc fsvc).1.WF := Heap.alloc_wf hwf fsvc
  have hread1 : (fsc.heap.alloc fsvc).1.read p = some f :=
    Heap.read_alloc_of_wf hwf hread fsvc
  have htouch := touchByAddressInner_eq
    { fsc with heap := (fsc.heap.alloc fsvc).1 } f.address now haddr hm hread1
  have hreadw : (((fsc.heap.alloc fsvc).1).write p { f with atime := now }).read p
      = some { f with atime := now } := by
    rw [Heap.read_write_self, hread1]
    rfl
  have hwfw : (((fsc.heap.alloc fsvc).1).write p { f with atime := now }).WF :=
    Heap.write_wf hwf1 _ _
  have hAdd : Add fsc fsvc now =
      ({ fsc with heap :=
          ((((fsc.heap.alloc fsvc).1).write p { f with atime := now }).alloc
            { f with atime := now }).1 },
        some (((fsc.heap.alloc fsvc).1).write p { f with atime := now }).next,
        none) := by
    unfold Add TouchByAddress
    simp only [cacheSet, hkey, isNameExist_nameExists, if_true, hread1, htouch, hreadw]
    rfl
  refine ⟨(((fsc.heap.alloc fsvc).1).write p { f with atime := now }).next,
    ?_, ?_, ?_, ?_, ?_, ?_⟩
  · rw [hAdd]
  · rw [hAdd]
    exact Heap.read_alloc_self _ _
  · rw [hAdd]
    exact Heap.read_alloc_of_wf hwfw hreadw _
  · rw [hAdd]
  · rw [hAdd]
  · rw [hAdd]

/-- Witness for C2: re-adding the already-cached function (same key, a new
address) at time 20 returns the stored record with `Atime` refreshed to 20
and changes no index. -/
theorem C2_add_existing_returns_and_touches_witness :
    (Add exSt1 { exSvc1 with address := "10.0.0.2" } 20).2 = (some 2, none) ∧
    (Add exSt1 { exSvc1 with address := "10.0.0.2" } 20).1.heap.read 2 =
      some { exSvc1 with ctime := 10, atime := 20 } ∧
    (Add exSt1 { exSvc1 with address := "10.0.0.2" } 20).1.heap.read 0 =
      some { exSvc1 with ctime := 10, atime := 20 } ∧
    (Add exSt1 { exSvc1 with address := "10.0.0.2" } 20).1.byFunction =
      exSt1.byFunction ∧
    (Add exSt1 { exSvc1 with address := "10.0.0.2" } 20).1.byAddress =
      exSt1.byAddress ∧
    (Add exSt1 { exSvc1 with address := "10.0.0.2" } 20).1.byFunctionUID =
      exSt1.byFunctionUID := by
  obtain ⟨r, h1, h2, h3, h4, h5, h6⟩ := C2_add_existing_returns_and_touches exSt1
    { exSvc1 with address := "10.0.0.2" } { exSvc1 with ctime := 10, atime := 10 }
    exMeta1 0 20 (by decide) (by decide) (by decide) (by decide) (by decide)
  have hd : (Add exSt1 { exSvc1 with address := "10.0.0.2" } 20).2 =
      (some 2, none) := by decide
  have hr : r = 2 := Option.some.inj (congrArg Prod.fst (h1.symm.trans hd))
  rw [hr] at h2
  exact ⟨hd, h2, h3, h4, h5, h6⟩

/-! ### Claim C10 -/

/-- C10: when `Add` hits an already-bound function key but the existing
record's address is missing from `byAddress` — or resolves to a meta whose
key is missing from `byFunction` — the implicit touch fails and `Add`
returns `(nil, error)` (a `NotFound` error): the existing record is not
surfaced, indistinguishable from a failed insert. -/
theorem C10_add_dangling_touch_fails (fsc : FunctionServiceCache)
    (fsvc f : FuncSvc) (p : Nat) (now : Int)
    (hwf : fsc.heap.WF)
    (hkey : alookup (CacheKey (fnMeta fsvc)) fsc.byFunction = some p)
    (hread : fsc.heap.read p = some f)
    (hdangling : alookup f.address fsc.byAddress = none ∨
      ∃ m', alookup f.address fsc.byAddress = some m' ∧
        alookup (CacheKey m') fsc.byFunction = none) :
    (Add fsc fsvc now).2.1 = none ∧
    ∃ e, (Add fsc fsvc now).2.2 = some e ∧ e.code = ErrorCode.ErrorNotFound := by
  have hread1 : (fsc.heap.alloc fsvc).1.read p = some f :=
    Heap.read_alloc_of_wf hwf hread fsvc
  rcases hdangling with haddr | ⟨m', haddr, hm⟩
  · have htouch := touchByAddressInner_eq_noAddr
      { fsc with heap := (fsc.heap.alloc fsvc).1 } f.address now haddr
    have hAdd : Add fsc fsvc now =
        ({ fsc with heap := (fsc.heap.alloc fsvc).1 }, none,
          some ⟨ErrorCode.ErrorNotFound, f.address⟩) := by
      unfold Add TouchByAddress
      simp only [cacheSet, hkey, isNameExist_nameExists, if_true, hread1, htouch]
    rw [hAdd]
    exact ⟨rfl, ⟨ErrorCode.ErrorNotFound, f.address⟩, rfl, rfl⟩
  · have htouch := touchByAddressInner_eq_noKey
      { fsc with heap := (fsc.heap.alloc fsvc).1 } f.address now haddr hm
    have hAdd : Add fsc fsvc now =
        ({ fsc with heap := (fsc.heap.alloc fsvc).1 }, none,
          some ⟨ErrorCode.ErrorNotFound, CacheKey m'⟩) := by
      unfold Add TouchByAddress
      simp only [cacheSet, hkey, isNameExist_nameExists, if_true, hread1, htouch]
    rw [hAdd]
    exact ⟨rfl, ⟨ErrorCode.ErrorNotFound, CacheKey m'⟩, rfl, rfl⟩

/-- Witness for C10 at the concrete state whose address index was emptied:
the existing record for `exMeta1` is not surfaced and a `NotFound` error
comes back. -/
theorem C10_add_dangling_touch_fails_witness :
    (Add exStNoAddr { exSvc1 with address := "10.0.0.2" } 20).2.1 = none ∧
    (Add exStNoAddr { exSvc1 with address := "10.0.0.2" } 20).2.2 =
      some ⟨ErrorCode.ErrorNotFound, "10.0.0.1:8080"⟩ := by
  have h := C10_add_dangling_touch_fails exStNoAddr
    { exSvc1 with address := "10.0.0.2" } { exSvc1 with ctime := 10, atime := 10 }
    0 20 (by decide) (by decide) (by decide) (Or.inl (by decide))
  exact ⟨h.1, by decide⟩

/-! ### Claim C4 -/

/-- C4: `GetByFunction` and `GetByFunctionUID` refresh the cached record's
`Atime` and return a pointer to a fresh value copy, distinct from the cached
pointer; overwriting the returned record with any value whatsoever leaves the
value produced by a subsequent lookup of the same key unchanged. -/
theorem C4_lookups_return_value_copies (fsc : FunctionServiceCache)
    (m m2 : ObjectMeta) (uid : String) (p p2 : Nat) (f f2 : FuncSvc) (now : Int)
    (hwf : fsc.heap.WF)
    (hkey : alookup (CacheKey m) fsc.byFunction = some p)
    (hread : fsc.heap.read p = some f)
    (huid : alookup uid fsc.byFunctionUID = some m2)
    (hkey2 : alookup (CacheKey m2) fsc.byFunction = some p2)
    (hread2 : fsc.heap.read p2 = some f2) :
    (∃ q, (GetByFunction fsc m now).2 = Except.ok q ∧ q ≠ p ∧
      (GetByFunction fsc m now).1.heap.read q = some { f with atime := now } ∧
      (GetByFunction fsc m now).1.heap.read p = some { f with atime := now } ∧
      ∀ v, lookupVal
          { (GetByFunction fsc m now).1 with
            heap := (GetByFunction fsc m now).1.heap.write q v } m now =
        lookupVal (GetByFunction fsc m now).1 m now) ∧
    (∃ q2, (GetByFunctionUID fsc uid now).2 = Except.ok q2 ∧ q2 ≠ p2 ∧
      (GetByFunctionUID fsc uid now).1.heap.read q2 =
        some { f2 with atime := now } ∧
      (GetByFunctionUID fsc uid now).1.heap.read p2 =
        some { f2 with atime := now } ∧
      ∀ v, lookupValByUID
          { (GetByFunctionUID fsc uid now).1 with
            heap := (GetByFunctionUID fsc uid now).1.heap.write q2 v } uid now =
        lookupValByUID (GetByFunctionUID fsc uid now).1 uid now) := by
  constructor
  · have hGet := GetByFunction_eq fsc m now hkey hread
    have hlt : p < fsc.heap.next := Heap.read_lt_next hwf hread
    have hreadw : (fsc.heap.write p { f with atime := now }).read p =
        some { f with atime := now } := by
      rw [Heap.read_write_self, hread]
      rfl
    have hwfw : (fsc.heap.write p { f with atime := now }).WF :=
      Heap.write_wf hwf _ _
    have hBF : (GetByFunction fsc m now).1.byFunction = fsc.byFunction := by
      rw [hGet]
    have hkeyA : alookup (CacheKey m) (GetByFunction fsc m now).1.byFunction
        = some p := by
      rw [hBF]; exact hkey
    have hreadA : (GetByFunction fsc m now).1.heap.read p =
        some { f with atime := now } := by
      rw [hGet]
      exact Heap.read_alloc_of_wf hwfw hreadw _
    refine ⟨fsc.heap.next, ?_, Nat.ne_of_gt hlt, ?_, hreadA, ?_⟩
    · rw [hGet]
      rfl
    · rw [hGet]
      exact Heap.read_alloc_self _ _
    · intro v
      have hreadB : ((GetByFunction fsc m now).1.heap.write fsc.heap.next v).read p
          = some { f with atime := now } := by
        rw [Heap.read_write_of_ne _ (Nat.ne_of_lt hlt) v]
        exact hreadA
      have hL := lookupVal_eq
        { (GetByFunction fsc m now).1 with
          heap := (GetByFunction fsc m now).1.heap.write fsc.heap.next v }
        m now hkeyA hreadB
      have hR := lookupVal_eq (GetByFunction fsc m now).1 m now hkeyA hreadA
      rw [hL, hR]
  · have hGet := GetByFunctionUID_eq fsc uid now huid hkey2 hread2
    have hlt : p2 < fsc.heap.next := Heap.read_lt_next hwf hread2
    have hreadw : (fsc.heap.write p2 { f2 with atime := now }).read p2 =
        some { f2 with atime := now } := by
      rw [Heap.read_write_self, hread2]
      rfl
    have hwfw : (fsc.heap.write p2 { f2 with atime := now }).WF :=
      Heap.write_wf hwf _ _
    have hBF : (GetByFunctionUID fsc uid now).1.byFunction = fsc.byFunction := by
      rw [hGet]
    have hBU : (GetByFunctionUID fsc uid now).1.byFunctionUID =
        fsc.byFunctionUID := by
      rw [hGet]
    have hkeyA : alookup (CacheKey m2) (GetByFunctionUID fsc uid now).1.byFunction
        = some p2 := by
      rw [hBF]; exact hkey2
    have huidA : alookup uid (GetByFunctionUID fsc uid now).1.byFunctionUID
        = some m2 := by
      rw [hBU]; exact huid
    have hreadA : (GetByFunctionUID fsc uid now).1.heap.read p2 =
        some { f2 with atime := now } := by
      rw [hGet]
      exact Heap.read_alloc_of_wf hwfw hreadw _
    refine ⟨fsc.heap.next, ?_, Nat.ne_of_gt hlt, ?_, hreadA, ?_⟩
    · rw [hGet]
      rfl
    · rw [hGet]
      exact Heap.read_alloc_self _ _
    · intro v
      have hreadB : ((GetByFunctionUID fsc uid now).1.heap.write fsc.heap.next v).read p2
          = some { f2 with atime := now } := by
        rw [Heap.read_write_of_ne _ (Nat.ne_of_lt hlt) v]
        exact hreadA
      have hL := lookupValByUID_eq
        { (GetByFunctionUID fsc uid now).1 with
          heap := (GetByFunctionUID fsc uid now).1.heap.write fsc.heap.next v }
        uid now huidA hkeyA hreadB
      have hR := lookupValByUID_eq (GetByFunctionUID fsc uid now).1 uid now
        huidA hkeyA hreadA
      rw [hL, hR]

/-- Witness for C4 at the concrete one-record state, mutating the returned
copy via the universally quantified conclusion. -/
theorem C4_lookups_return_value_copies_witness :
    (GetByFunction exSt1 exMeta1 20).2 = Except.ok 1 ∧
    (GetByFunction exSt1 exMeta1 20).1.heap.read 1 =
      some { exSvc1 with ctime := 10, atime := 20 } ∧
    (GetByFunction exSt1 exMeta1 20).1.heap.read 0 =
      some { exSvc1 with ctime := 10, atime := 20 } ∧
    lookupVal
        { (GetByFunction exSt1 exMeta1 20).1 with
          heap := (GetByFunction exSt1 exMeta1 20).1.heap.write 1
            { exSvc1 with atime := 999 } } exMeta1 20 =
      lookupVal (GetByFunction exSt1 exMeta1 20).1 exMeta1 20 := by
  obtain ⟨q, h1, h2, h3, h4, h5⟩ := (C4_lookups_return_value_copies exSt1 exMeta1
    exMeta1 "u1" 0 0 { exSvc1 with ctime := 10, atime := 10 }
    { exSvc1 with ctime := 10, atime := 10 }
    20 (by decide) (by decide) (by decide) (by decide) (by decide) (by decide)).1
  have hd : (GetByFunction exSt1 exMeta1 20).2 = Except.ok 1 := rfl
  have hq : q = 1 := Except.ok.inj (h1.symm.trans hd)
  rw [hq] at h3 h5
  exact ⟨hd, h3, h4, h5 { exSvc1 with atime := 999 }⟩

/-! ### Claim C6 -/

/-- C6: when the pool snapshot is empty, `DumpFnSvcCache` returns `NotFound`
and the filesystem is untouched (no file created); when at least one group is
present, it writes exactly one line per group to the newly created file
`/tmp/dump_<first uuid component>.txt` — eight hex characters for a canonical
random UUID — and, the name being fresh, no existing file is overwritten
(every other path keeps its previous content). -/
theorem C6_dump_empty_notfound_else_fresh_file (fsc : FunctionServiceCache)
    (fs : FileSystem) (dirExists : Bool) (uid : String)
    (hfresh : alookup (dumpFileName uid) fs = none)
    (h8 : (uuidFirstComponent uid).length = 8) :
    (getFnSvcGroup fsc.connFunctionCache = [] →
      DumpFnSvcCache fsc fs dirExists uid =
        (fs, some ⟨ErrorCode.ErrorNotFound, "function service not found"⟩)) ∧
    (getFnSvcGroup fsc.connFunctionCache ≠ [] →
      (DumpFnSvcCache fsc fs dirExists uid).2 = none ∧
      alookup (dumpFileName uid) fs = none ∧
      alookup (dumpFileName uid) (DumpFnSvcCache fsc fs dirExists uid).1 =
        some ((getFnSvcGroup fsc.connFunctionCache).map groupLine) ∧
      (∀ other, other ≠ dumpFileName uid →
        alookup other (DumpFnSvcCache fsc fs dirExists uid).1 =
          alookup other fs) ∧
      dumpFileName uid =
        "/tmp/dump_" ++ uuidFirstComponent uid ++ ".txt" ∧
      (uuidFirstComponent uid).length = 8) := by
  constructor
  · intro h
    simp [DumpFnSvcCache, h]
  · intro h
    have hlen : ¬ (getFnSvcGroup fsc.connFunctionCache).length = 0 := by
      simpa [List.length_eq_zero] using h
    have heq : DumpFnSvcCache fsc fs dirExists uid =
        (aupsert (dumpFileName uid)
          ((getFnSvcGroup fsc.connFunctionCache).map groupLine) fs, none) := by
      unfold DumpFnSvcCache dumpData
      simp only [if_neg hlen]
      cases dirExists <;> simp
    refine ⟨by rw [heq], hfresh, ?_, ?_, ?_, h8⟩
    · rw [heq]
      exact alookup_aupsert_self _ _ _
    · intro other hother
      rw [heq]
      exact alookup_aupsert_of_ne hother _ _
    · have hpre : dumpDir ++ "/" ++ dumpFilePrefix ++ "_" = "/tmp/dump_" := by decide
      unfold dumpFileName
      rw [hpre]

/-- Witness for C6 on the one-group pool, an empty filesystem and a canonical
UUID. -/
theorem C6_dump_empty_notfound_else_fresh_file_witness :
    (DumpFnSvcCache exFscPool [] true exUuid).2 = none ∧
    alookup (dumpFileName exUuid) (DumpFnSvcCache exFscPool [] true exUuid).1 =
      some ((getFnSvcGroup exFscPool.connFunctionCache).map groupLine) ∧
    dumpFileName exUuid = "/tmp/dump_718b5b6e.txt" := by
  have h := (C6_dump_empty_notfound_else_fresh_file exFscPool [] true exUuid
    (by decide) (by decide)).2 (by decide)
  exact ⟨h.1, h.2.2.1, by decide⟩


/-! ### Claim C9: the invariant machinery -/

theorem mem_cachedFuncSvcs_of_byFunction {fsc : FunctionServiceCache}
    {kp : String × Nat} {f : FuncSvc} (hkp : kp ∈ fsc.byFunction)
    (hr : fsc.heap.read kp.2 = some f) : f ∈ cachedFuncSvcs fsc := by
  unfold cachedFuncSvcs
  exact List.mem_append_left _ (List.mem_filterMap.mpr ⟨kp, hkp, hr⟩)

theorem mem_cachedFuncSvcs_of_pool {fsc : FunctionServiceCache} {f : FuncSvc}
    (hf : f ∈ poolVals fsc.connFunctionCache) : f ∈ cachedFuncSvcs fsc := by
  unfold cachedFuncSvcs
  exact List.mem_append_right _ hf

theorem cachedFuncSvcs_cases {fsc : FunctionServiceCache} {f : FuncSvc}
    (hf : f ∈ cachedFuncSvcs fsc) :
    (∃ kp, kp ∈ fsc.byFunction ∧ fsc.heap.read kp.2 = some f) ∨
      f ∈ poolVals fsc.connFunctionCache := by
  unfold cachedFuncSvcs at hf
  rcases List.mem_append.mp hf with h1 | h1
  · left
    exact List.mem_filterMap.mp h1
  · right
    exact h1

theorem timeInv_mono {fsc : FunctionServiceCache} {t t' : Int}
    (h : TimeInv fsc t) (hle : t ≤ t') : TimeInv fsc t' := by
  obtain ⟨hwf, hptr, hb⟩ := h
  refine ⟨hwf, hptr, fun f hf => ?_⟩
  obtain ⟨h1, h2⟩ := hb f hf
  exact ⟨h1, le_trans h2 hle⟩

theorem timeInv_empty (t : Int) : TimeInv emptyFsc t := by
  refine ⟨?_, ?_, ?_⟩
  · intro c hc
    simp [emptyFsc] at hc
  · intro kp hkp
    simp [emptyFsc] at hkp
  · intro f hf
    simp [cachedFuncSvcs, poolVals, emptyFsc, Heap.read, alookup] at hf

theorem timeInv_alloc {fsc : FunctionServiceCache} {t : Int} (v : FuncSvc)
    (h : TimeInv fsc t) :
    TimeInv { fsc with heap := (fsc.heap.alloc v).1 } t := by
  obtain ⟨hwf, hptr, hb⟩ := h
  refine ⟨Heap.alloc_wf hwf v, ?_, ?_⟩
  · intro kp hkp
    exact Nat.lt_trans (hptr kp hkp) (Nat.lt_succ_self _)
  · intro f hf
    rcases cachedFuncSvcs_cases hf with ⟨kp, hkp, hr⟩ | hpool
    · rw [Heap.read_alloc_of_lt (hptr kp hkp) v] at hr
      exact hb f (mem_cachedFuncSvcs_of_byFunction hkp hr)
    · exact hb f (mem_cachedFuncSvcs_of_pool hpool)

theorem timeInv_write {fsc : FunctionServiceCache} {t n : Int} {p : Nat}
    {w : FuncSvc} (h : TimeInv fsc t) (hle : t ≤ n)
    (hwc : w.ctime ≤ w.atime) (hwa : w.atime ≤ n) :
    TimeInv { fsc with heap := fsc.heap.write p w } n := by
  obtain ⟨hwf, hptr, hb⟩ := h
  refine ⟨Heap.write_wf hwf p w, ?_, ?_⟩
  · intro kp hkp
    exact hptr kp hkp
  · intro f hf
    rcases cachedFuncSvcs_cases hf with ⟨kp, hkp, hr⟩ | hpool
    · by_cases hpe : kp.2 = p
      · rw [hpe, Heap.read_write_self] at hr
        cases hold : fsc.heap.read p with
        | none => rw [hold] at hr; exact Option.noConfusion hr
        | some f0 =>
          rw [hold] at hr
          have : w = f := Option.some.inj hr
          subst this
          exact ⟨hwc, hwa⟩
      · rw [Heap.read_write_of_ne _ hpe w] at hr
        obtain ⟨h1, h2⟩ := hb f (mem_cachedFuncSvcs_of_byFunction hkp hr)
        exact ⟨h1, le_trans h2 hle⟩
    · obtain ⟨h1, h2⟩ := hb f (mem_cachedFuncSvcs_of_pool hpool)
      exact ⟨h1, le_trans h2 hle⟩

theorem timeInv_extend_byFunction {fsc : FunctionServiceCache} {t : Int}
    {key : String} {p : Nat} {w : FuncSvc}
    (h : TimeInv fsc t) (hlt : p < fsc.heap.next)
    (hr : fsc.heap.read p = some w)
    (hwc : w.ctime ≤ w.atime) (hwa : w.atime ≤ t) :
    TimeInv { fsc with byFunction := (key, p) :: fsc.byFunction } t := by
  obtain ⟨hwf, hptr, hb⟩ := h
  refine ⟨hwf, ?_, ?_⟩
  · intro kp hkp
    rcases List.mem_cons.mp hkp with heq | hmem
    · rw [heq]
      exact hlt
    · exact hptr kp hmem
  · intro f hf
    rcases cachedFuncSvcs_cases hf with ⟨kp, hkp, hrkp⟩ | hpool
    · rcases List.mem_cons.mp hkp with heq | hmem
      · subst heq
        rw [hr] at hrkp
        have : w = f := Option.some.inj hrkp
        subst this
        exact ⟨hwc, hwa⟩
      · exact hb f (mem_cachedFuncSvcs_of_byFunction hmem hrkp)
    · exact hb f (mem_cachedFuncSvcs_of_pool hpool)

theorem timeInv_pool {fsc : FunctionServiceCache} {t n : Int} {pc1 : PoolCache}
    (h : TimeInv fsc t) (hle : t ≤ n)
    (hsub : ∀ x ∈ poolVals pc1,
      (x.ctime ≤ x.atime ∧ x.atime ≤ n) ∨ x ∈ poolVals fsc.connFunctionCache) :
    TimeInv { fsc with connFunctionCache := pc1 } n := by
  obtain ⟨hwf, hptr, hb⟩ := h
  refine ⟨hwf, fun kp hkp => hptr kp hkp, ?_⟩
  intro f hf
  rcases cachedFuncSvcs_cases hf with ⟨kp, hkp, hr⟩ | hpool
  · obtain ⟨h1, h2⟩ := hb f (mem_cachedFuncSvcs_of_byFunction hkp hr)
    exact ⟨h1, le_trans h2 hle⟩
  · rcases hsub f hpool with hx | hx
    · exact hx
    · obtain ⟨h1, h2⟩ := hb f (mem_cachedFuncSvcs_of_pool hx)
      exact ⟨h1, le_trans h2 hle⟩


theorem mem_poolVals {pc : PoolCache} {x : FuncSvc} :
    x ∈ poolVals pc ↔ ∃ g ∈ pc, ∃ ae ∈ g.2.svcs, ae.2.val = x := by
  simp [poolVals, List.mem_flatMap, List.mem_map]

theorem findAvailEntry_mem {rpp : Int} :
    ∀ {l : List (String × PoolEntry)} {ae}, findAvailEntry rpp l = some ae → ae ∈ l := by
  intro l
  induction l with
  | nil => intro ae h; simp [findAvailEntry] at h
  | cons hd tl ih =>
    obtain ⟨a, e⟩ := hd
    intro ae h
    by_cases hav : e.activeRequests < rpp
    · simp [findAvailEntry, hav] at h
      simp [h]
    · simp [findAvailEntry, hav] at h
      exact List.mem_cons_of_mem _ (ih h)

theorem poolVals_setSvcValue_subset (pc : PoolCache) (key addr : String)
    (v : FuncSvc) (cl : String) :
    ∀ x ∈ poolVals (setSvcValue pc key addr v cl), x = v ∨ x ∈ poolVals pc := by
  intro x hx
  obtain ⟨gg, hgg, ae, hae, hval⟩ := mem_poolVals.mp hx
  rcases mem_aupsert hgg with heq | hmem
  · -- the updated group
    subst heq
    rcases mem_aupsert hae with heq2 | hmem2
    · subst heq2
      left
      exact hval.symm
    · -- an untouched entry of the old group
      cases hg : alookup key pc with
      | none =>
        rw [hg] at hmem2
        simp [emptyGroup] at hmem2
      | some g0 =>
        rw [hg] at hmem2
        right
        exact mem_poolVals.mpr ⟨(key, g0), alookup_some_mem hg, ae, hmem2, hval⟩
  · right
    exact mem_poolVals.mpr ⟨gg, hmem, ae, hae, hval⟩

theorem getSvcValue_fst_none {pc : PoolCache} {key : String} {rpp n : Int}
    (hg : alookup key pc = none) : (getSvcValue pc key rpp n).1 = pc := by
  unfold getSvcValue
  simp only [hg]

theorem getSvcValue_fst_noAvail {pc : PoolCache} {key : String} {rpp n : Int}
    {g : FnSvcGroup} (hg : alookup key pc = some g)
    (hfa : findAvailEntry rpp g.svcs = none) :
    (getSvcValue pc key rpp n).1 = pc := by
  unfold getSvcValue
  simp only [hg, hfa]

theorem getSvcValue_fst_avail {pc : PoolCache} {key : String} {rpp n : Int}
    {g : FnSvcGroup} {addr : String} {e : PoolEntry}
    (hg : alookup key pc = some g)
    (hfa : findAvailEntry rpp g.svcs = some (addr, e)) :
    (getSvcValue pc key rpp n).1 =
      aupsert key
        { g with svcs := aupsert addr ({ e with activeRequests := e.activeRequests + 1, val := { e.val with atime := n } }) g.svcs } pc := by
  unfold getSvcValue
  simp only [hg, hfa]

theorem poolVals_getSvcValue_subset (pc : PoolCache) (key : String)
    (rpp n : Int) :
    ∀ x ∈ poolVals (getSvcValue pc key rpp n).1,
      (∃ y ∈ poolVals pc, x = { y with atime := n }) ∨ x ∈ poolVals pc := by
  intro x hx
  cases hg : alookup key pc with
  | none =>
    rw [getSvcValue_fst_none hg] at hx
    exact Or.inr hx
  | some g =>
    cases hfa : findAvailEntry rpp g.svcs with
    | none =>
      rw [getSvcValue_fst_noAvail hg hfa] at hx
      exact Or.inr hx
    | some ae =>
      obtain ⟨addr, e⟩ := ae
      rw [getSvcValue_fst_avail hg hfa] at hx
      obtain ⟨gg, hgg, ae2, hae2, hval⟩ := mem_poolVals.mp hx
      rcases mem_aupsert hgg with heq | hmem
      · subst heq
        rcases mem_aupsert hae2 with heq2 | hmem2
        · subst heq2
          left
          refine ⟨e.val, ?_, hval.symm⟩
          exact mem_poolVals.mpr
            ⟨(key, g), alookup_some_mem hg, (addr, e), findAvailEntry_mem hfa, rfl⟩
        · right
          exact mem_poolVals.mpr ⟨(key, g), alookup_some_mem hg, ae2, hmem2, hval⟩
      · right
        exact mem_poolVals.mpr ⟨gg, hmem, ae2, hae2, hval⟩

/-! Per-operation preservation of the invariant. -/

theorem timeInv_touch {fsc : FunctionServiceCache} {t n : Int} (addr : String)
    (h : TimeInv fsc t) (hle : t ≤ n) :
    TimeInv (touchByAddressInner fsc addr n).1 n := by
  cases haddr : alookup addr fsc.byAddress with
  | none =>
    rw [touchByAddressInner_eq_noAddr fsc addr n haddr]
    exact timeInv_mono h hle
  | some m1 =>
    cases hm : alookup (CacheKey m1) fsc.byFunction with
    | none =>
      rw [touchByAddressInner_eq_noKey fsc addr n haddr hm]
      exact timeInv_mono h hle
    | some p =>
      cases hread : fsc.heap.read p with
      | none =>
        have heq : touchByAddressInner fsc addr n =
            (fsc, some ⟨ErrorCode.ErrorInternal, "dangling pointer"⟩) := by
          unfold touchByAddressInner
          simp only [cacheGet, haddr, hm, hread]
        rw [heq]
        exact timeInv_mono h hle
      | some f =>
        rw [touchByAddressInner_eq fsc addr n haddr hm hread]
        have hf := h.2.2 f (mem_cachedFuncSvcs_of_byFunction
          (alookup_some_mem hm) hread)
        exact timeInv_write h hle
          (le_trans hf.1 (le_trans hf.2 hle)) (le_refl n)

theorem timeInv_getByFunction {fsc : FunctionServiceCache} {t n : Int}
    (m : ObjectMeta) (h : TimeInv fsc t) (hle : t ≤ n) :
    TimeInv (GetByFunction fsc m n).1 n := by
  cases hkey : alookup (CacheKey m) fsc.byFunction with
  | none =>
    have heq : (GetByFunction fsc m n).1 = fsc := by
      unfold GetByFunction
      simp only [cacheGet, hkey]
    rw [heq]
    exact timeInv_mono h hle
  | some p =>
    cases hread : fsc.heap.read p with
    | none =>
      have heq : (GetByFunction fsc m n).1 = fsc := by
        unfold GetByFunction
        simp only [cacheGet, hkey, hread]
      rw [heq]
      exact timeInv_mono h hle
    | some f =>
      have heq := GetByFunction_eq fsc m n hkey hread
      have heq1 : (GetByFunction fsc m n).1 =
          { fsc with heap :=
              ((fsc.heap.write p { f with atime := n }).alloc
                { f with atime := n }).1 } := by
        rw [heq]
      rw [heq1]
      have hf := h.2.2 f (mem_cachedFuncSvcs_of_byFunction
        (alookup_some_mem hkey) hread)
      have hw : TimeInv { fsc with heap := fsc.heap.write p { f with atime := n } } n :=
        timeInv_write h hle (le_trans hf.1 (le_trans hf.2 hle)) (le_refl n)
      exact timeInv_alloc _ hw

theorem timeInv_getByFunctionUID {fsc : FunctionServiceCache} {t n : Int}
    (uid : String) (h : TimeInv fsc t) (hle : t ≤ n) :
    TimeInv (GetByFunctionUID fsc uid n).1 n := by
  cases huid : alookup uid fsc.byFunctionUID with
  | none =>
    have heq : (GetByFunctionUID fsc uid n).1 = fsc := by
      unfold GetByFunctionUID
      simp only [cacheGet, huid]
    rw [heq]
    exact timeInv_mono h hle
  | some m2 =>
    cases hkey : alookup (CacheKey m2) fsc.byFunction with
    | none =>
      have heq : (GetByFunctionUID fsc uid n).1 = fsc := by
        unfold GetByFunctionUID
        simp only [cacheGet, huid, hkey]
      rw [heq]
      exact timeInv_mono h hle
    | some p =>
      cases hread : fsc.heap.read p with
      | none =>
        have heq : (GetByFunctionUID fsc uid n).1 = fsc := by
          unfold GetByFunctionUID
          simp only [cacheGet, huid, hkey, hread]
        rw [heq]
        exact timeInv_mono h hle
      | some f =>
        have heq := GetByFunctionUID_eq fsc uid n huid hkey hread
        have heq1 : (GetByFunctionUID fsc uid n).1 =
            { fsc with heap :=
                ((fsc.heap.write p { f with atime := n }).alloc
                  { f with atime := n }).1 } := by
          rw [heq]
        rw [heq1]
        have hf := h.2.2 f (mem_cachedFuncSvcs_of_byFunction
          (alookup_some_mem hkey) hread)
        have hw : TimeInv { fsc with heap := fsc.heap.write p { f with atime := n } } n :=
          timeInv_write h hle (le_trans hf.1 (le_trans hf.2 hle)) (le_refl n)
        exact timeInv_alloc _ hw

theorem timeInv_addFunc {fsc : FunctionServiceCache} {t n : Int}
    (fsvc : FuncSvc) (h : TimeInv fsc t) (hle : t ≤ n) :
    TimeInv (AddFunc fsc fsvc n) n := by
  unfold AddFunc
  apply timeInv_pool h hle
  intro x hx
  rcases poolVals_setSvcValue_subset _ _ _ _ _ x hx with heq | hmem
  · subst heq
    exact Or.inl ⟨le_refl n, le_refl n⟩
  · exact Or.inr hmem

theorem timeInv_getFuncSvc {fsc : FunctionServiceCache} {t n : Int}
    (m : ObjectMeta) (rpp : Int) (h : TimeInv fsc t) (hle : t ≤ n) :
    TimeInv (GetFuncSvc fsc m rpp n).1 n := by
  have heq : (GetFuncSvc fsc m rpp n).1 =
      { fsc with connFunctionCache :=
          (getSvcValue fsc.connFunctionCache (CacheKey m) rpp n).1 } := by
    unfold GetFuncSvc
    rfl
  rw [heq]
  apply timeInv_pool h hle
  intro x hx
  rcases poolVals_getSvcValue_subset _ _ _ _ x hx with ⟨y, hy, hxy⟩ | hmem
  · subst hxy
    obtain ⟨h1, h2⟩ := h.2.2 y (mem_cachedFuncSvcs_of_pool hy)
    exact Or.inl ⟨le_trans h1 (le_trans h2 hle), le_refl n⟩
  · exact Or.inr hmem


theorem Heap.alloc_snd (h : Heap) (v : FuncSvc) :
    (h.alloc v).2 = h.next := rfl

theorem timeInv_of_eq {fsc fsc1 : FunctionServiceCache} {t : Int}
    (hh : fsc1.heap = fsc.heap) (hb : fsc1.byFunction = fsc.byFunction)
    (hp : fsc1.connFunctionCache = fsc.connFunctionCache)
    (h : TimeInv fsc t) : TimeInv fsc1 t := by
  obtain ⟨h1, h2, h3⟩ := h
  refine ⟨?_, ?_, ?_⟩
  · rw [hh]
    exact h1
  · rw [hb, hh]
    exact h2
  · intro f hf
    apply h3
    unfold cachedFuncSvcs at hf ⊢
    rw [hh, hb, hp] at hf
    exact hf

theorem timeInv_add {fsc : FunctionServiceCache} {t n : Int} (fsvc : FuncSvc)
    (h : TimeInv fsc t) (hle : t ≤ n) :
    TimeInv (Add fsc fsvc n).1 n := by
  have h1 : TimeInv { fsc with heap := (fsc.heap.alloc fsvc).1 } t :=
    timeInv_alloc fsvc h
  cases hkey : alookup (CacheKey (fnMeta fsvc)) fsc.byFunction with
  | some q =>
    -- the function key is already bound: the existing path
    cases hreadq : (fsc.heap.alloc fsvc).1.read q with
    | none =>
      have heq : (Add fsc fsvc n).1 =
          { fsc with heap := (fsc.heap.alloc fsvc).1 } := by
        unfold Add
        simp only [cacheSet, hkey, isNameExist_nameExists, if_true, hreadq]
      rw [heq]
      exact timeInv_mono h1 hle
    | some f =>
      cases haddr : alookup f.address fsc.byAddress with
      | none =>
        have htouch := touchByAddressInner_eq_noAddr
          { fsc with heap := (fsc.heap.alloc fsvc).1 } f.address n haddr
        have heq : (Add fsc fsvc n).1 =
            { fsc with heap := (fsc.heap.alloc fsvc).1 } := by
          unfold Add TouchByAddress
          simp only [cacheSet, hkey, isNameExist_nameExists, if_true, hreadq, htouch]
        rw [heq]
        exact timeInv_mono h1 hle
      | some m1 =>
        cases hm : alookup (CacheKey m1) fsc.byFunction with
        | none =>
          have htouch := touchByAddressInner_eq_noKey
            { fsc with heap := (fsc.heap.alloc fsvc).1 } f.address n haddr hm
          have heq : (Add fsc fsvc n).1 =
              { fsc with heap := (fsc.heap.alloc fsvc).1 } := by
            unfold Add TouchByAddress
            simp only [cacheSet, hkey, isNameExist_nameExists, if_true, hreadq, htouch]
          rw [heq]
          exact timeInv_mono h1 hle
        | some pq =>
          cases hreadp : (fsc.heap.alloc fsvc).1.read pq with
          | none =>
            have htouch : touchByAddressInner
                { fsc with heap := (fsc.heap.alloc fsvc).1 } f.address n =
                ({ fsc with heap := (fsc.heap.alloc fsvc).1 },
                  some ⟨ErrorCode.ErrorInternal, "dangling pointer"⟩) := by
              unfold touchByAddressInner
              simp only [cacheGet, haddr, hm, hreadp]
            have heq : (Add fsc fsvc n).1 =
                { fsc with heap := (fsc.heap.alloc fsvc).1 } := by
              unfold Add TouchByAddress
              simp only [cacheSet, hkey, isNameExist_nameExists, if_true, hreadq, htouch]
            rw [heq]
            exact timeInv_mono h1 hle
          | some g =>
            have htouch := touchByAddressInner_eq
              { fsc with heap := (fsc.heap.alloc fsvc).1 } f.address n haddr hm hreadp
            have hg := h1.2.2 g (mem_cachedFuncSvcs_of_byFunction
              (alookup_some_mem hm) hreadp)
            have h2 : TimeInv { fsc with heap := (fsc.heap.alloc fsvc).1.write pq { g with atime := n } } n :=
              timeInv_write h1 hle (le_trans hg.1 (le_trans hg.2 hle)) (le_refl n)
            cases hreadq2 : ((fsc.heap.alloc fsvc).1.write pq { g with atime := n }).read q with
            | none =>
              have heq : (Add fsc fsvc n).1 =
                  { fsc with heap := (fsc.heap.alloc fsvc).1.write pq { g with atime := n } } := by
                unfold Add TouchByAddress
                simp only [cacheSet, hkey, isNameExist_nameExists, if_true, hreadq,
                  htouch, hreadq2]
              rw [heq]
              exact h2
            | some fPost =>
              have heq : (Add fsc fsvc n).1 =
                  { fsc with heap :=
                      (((fsc.heap.alloc fsvc).1.write pq { g with atime := n }).alloc fPost).1 } := by
                unfold Add TouchByAddress
                simp only [cacheSet, hkey, isNameExist_nameExists, if_true, hreadq,
                  htouch, hreadq2]
              rw [heq]
              exact timeInv_alloc fPost h2
  | none =>
    -- fresh insert
    have hreadp0 : (fsc.heap.alloc fsvc).1.read (fsc.heap.alloc fsvc).2 = some fsvc :=
      Heap.read_alloc_self fsc.heap fsvc
    have hwq : ((fsc.heap.alloc fsvc).1.write (fsc.heap.alloc fsvc).2 { fsvc with ctime := n, atime := n }).read (fsc.heap.alloc fsvc).2 = some { fsvc with ctime := n, atime := n } := by
      rw [Heap.read_write_self, hreadp0]
      rfl
    have h2 : TimeInv { fsc with heap := (fsc.heap.alloc fsvc).1.write (fsc.heap.alloc fsvc).2 { fsvc with ctime := n, atime := n } } n :=
      timeInv_write h1 hle (le_refl n) (le_refl n)
    have hlt : (fsc.heap.alloc fsvc).2 <
        ((fsc.heap.alloc fsvc).1.write (fsc.heap.alloc fsvc).2 { fsvc with ctime := n, atime := n }).next := by
      rw [Heap.write_next, Heap.alloc_snd, Heap.alloc_next]
      exact Nat.lt_succ_self _
    have h3 : TimeInv
        { fsc with
            heap := (fsc.heap.alloc fsvc).1.write (fsc.heap.alloc fsvc).2 { fsvc with ctime := n, atime := n }
            byFunction := (CacheKey (fnMeta fsvc), (fsc.heap.alloc fsvc).2) :: fsc.byFunction } n := by
      exact timeInv_extend_byFunction h2 hlt hwq (le_refl n) (le_refl n)
    cases haddr2 : alookup fsvc.address fsc.byAddress with
    | some m0 =>
      have heq : (Add fsc fsvc n).1 =
          { fsc with
              heap := (fsc.heap.alloc fsvc).1.write (fsc.heap.alloc fsvc).2 { fsvc with ctime := n, atime := n }
              byFunction := (CacheKey (fnMeta fsvc), (fsc.heap.alloc fsvc).2) :: fsc.byFunction } := by
        unfold Add
        simp only [cacheSet, hkey, haddr2, isNameExist_nameExists, if_true]
      rw [heq]
      exact h3
    | none =>
      cases huid2 : alookup (fnMeta fsvc).uid fsc.byFunctionUID with
      | some m0 =>
        have heq : (Add fsc fsvc n).1 =
            { fsc with
                heap := (fsc.heap.alloc fsvc).1.write (fsc.heap.alloc fsvc).2 { fsvc with ctime := n, atime := n }
                byFunction := (CacheKey (fnMeta fsvc), (fsc.heap.alloc fsvc).2) :: fsc.byFunction
                byAddress := (fsvc.address, fnMeta fsvc) :: fsc.byAddress } := by
          unfold Add
          simp only [cacheSet, hkey, haddr2, huid2, isNameExist_nameExists, if_true]
        rw [heq]
        exact timeInv_of_eq rfl rfl rfl h3
      | none =>
        have heq : (Add fsc fsvc n).1 =
            { fsc with
                heap := (fsc.heap.alloc fsvc).1.write (fsc.heap.alloc fsvc).2 { fsvc with ctime := n, atime := n }
                byFunction := (CacheKey (fnMeta fsvc), (fsc.heap.alloc fsvc).2) :: fsc.byFunction
                byAddress := (fsvc.address, fnMeta fsvc) :: fsc.byAddress
                byFunctionUID := ((fnMeta fsvc).uid, fnMeta fsvc) :: fsc.byFunctionUID } := by
          unfold Add
          simp only [cacheSet, hkey, haddr2, huid2, isNameExist_nameExists, if_true]
        rw [heq]
        exact timeInv_of_eq rfl rfl rfl h3

theorem timeInv_stepOp {fsc : FunctionServiceCache} {t n : Int} (op : CacheOp)
    (h : TimeInv fsc t) (hle : t ≤ n) : TimeInv (stepOp fsc op n) n := by
  cases op with
  | add fsvc => exact timeInv_add fsvc h hle
  | addFunc fsvc => exact timeInv_addFunc fsvc h hle
  | getByFunction m => exact timeInv_getByFunction m h hle
  | getByFunctionUID uid => exact timeInv_getByFunctionUID uid h hle
  | touchByAddress a => exact timeInv_touch a h hle
  | getFuncSvc m rpp => exact timeInv_getFuncSvc m rpp h hle

theorem timeInv_runOps :
    ∀ (ops : List (CacheOp × Int)) (fsc : FunctionServiceCache) (t : Int),
      TimeInv fsc t → List.Chain (· ≤ ·) t (ops.map Prod.snd) →
      ∃ t1, TimeInv (runOps fsc ops) t1 := by
  intro ops
  induction ops with
  | nil =>
    intro fsc t h _
    exact ⟨t, h⟩
  | cons hd tl ih =>
    obtain ⟨op, s⟩ := hd
    intro fsc t h hchain
    rw [List.map_cons] at hchain
    cases hchain with
    | cons hts hrest =>
      exact ih (stepOp fsc op s) s (timeInv_stepOp op h hts) hrest

/-! ### Claim C9 -/

/-- C9: starting from the empty cache, after any sequence of `Add`,
`AddFunc`, `GetByFunction`, `GetByFunctionUID`, `TouchByAddress` and
`GetFuncSvc` operations executed at non-decreasing wall-clock times, every
`FuncSvc` reachable in the cache (through `byFunction` or the pool cache)
satisfies `Atime ≥ Ctime`: creation sets them equal and every read path only
moves `Atime` forward to the current time. -/
theorem C9_atime_ge_ctime (ops : List (CacheOp × Int)) (t0 : Int)
    (hmono : List.Chain (· ≤ ·) t0 (ops.map Prod.snd)) :
    ∀ f ∈ cachedFuncSvcs (runOps emptyFsc ops), f.ctime ≤ f.atime := by
  obtain ⟨t1, hinv⟩ := timeInv_runOps ops emptyFsc t0 (timeInv_empty t0) hmono
  intro f hf
  exact (hinv.2.2 f hf).1

/-- Witness for C9: a concrete run — add at 10, lookup at 25 — leaves the
record with `Ctime = 10 ≤ Atime = 25`. -/
theorem C9_atime_ge_ctime_witness :
    ({ exSvc1 with ctime := 10, atime := 25 } : FuncSvc).ctime ≤
      ({ exSvc1 with ctime := 10, atime := 25 } : FuncSvc).atime := by
  exact C9_atime_ge_ctime
    [(CacheOp.add exSvc1, 10), (CacheOp.getByFunction exMeta1, 25)] 0
    (List.Chain.cons (by decide) (List.Chain.cons (by decide) List.Chain.nil))
    _ (by decide)


/-! ### Claim C3: amended theorem -/

/-- C3 (amended): for every `FuncSvc` whose function key is not yet bound,
`Add` returns `(nil, nil)` and stores a record with `Ctime = Atime = now`
reachable from `byFunction` at the function key.  `byAddress` is populated at
`f.Address` only when that address was free; a `NameExists` collision on
`byAddress` is not an error but causes an early return that leaves
`byFunctionUID` untouched.  When the address was free, `byFunctionUID` is
populated at `f`'s UID only when the UID was free; a collision there is also
not an error and keeps the previous entry. -/
theorem C3_add_fresh_amended (fsc : FunctionServiceCache) (fsvc : FuncSvc)
    (now : Int)
    (hkey : alookup (CacheKey (fnMeta fsvc)) fsc.byFunction = none) :
    (Add fsc fsvc now).2 = (none, none) ∧
    alookup (CacheKey (fnMeta fsvc)) (Add fsc fsvc now).1.byFunction =
      some (fsc.heap.alloc fsvc).2 ∧
    (Add fsc fsvc now).1.heap.read (fsc.heap.alloc fsvc).2 =
      some { fsvc with ctime := now, atime := now } ∧
    (alookup fsvc.address fsc.byAddress = none →
      alookup fsvc.address (Add fsc fsvc now).1.byAddress = some (fnMeta fsvc) ∧
      (alookup (fnMeta fsvc).uid fsc.byFunctionUID = none →
        alookup (fnMeta fsvc).uid (Add fsc fsvc now).1.byFunctionUID =
          some (fnMeta fsvc)) ∧
      (∀ m0, alookup (fnMeta fsvc).uid fsc.byFunctionUID = some m0 →
        (Add fsc fsvc now).1.byFunctionUID = fsc.byFunctionUID)) ∧
    (∀ m0, alookup fsvc.address fsc.byAddress = some m0 →
      (Add fsc fsvc now).1.byAddress = fsc.byAddress ∧
      (Add fsc fsvc now).1.byFunctionUID = fsc.byFunctionUID) := by
  have hwq : ((fsc.heap.alloc fsvc).1.write (fsc.heap.alloc fsvc).2 { fsvc with ctime := now, atime := now }).read (fsc.heap.alloc fsvc).2 = some { fsvc with ctime := now, atime := now } := by
    rw [Heap.read_write_self, Heap.read_alloc_self]
    rfl
  cases haddr2 : alookup fsvc.address fsc.byAddress with
  | some m0 =>
    have heq : Add fsc fsvc now =
        ({ fsc with
            heap := (fsc.heap.alloc fsvc).1.write (fsc.heap.alloc fsvc).2 { fsvc with ctime := now, atime := now }
            byFunction := (CacheKey (fnMeta fsvc), (fsc.heap.alloc fsvc).2) :: fsc.byFunction },
          none, none) := by
      unfold Add
      simp only [cacheSet, hkey, haddr2, isNameExist_nameExists, if_true]
    refine ⟨by rw [heq], ?_, ?_, ?_, ?_⟩
    · rw [heq]
      simp [alookup]
    · rw [heq]
      exact hwq
    · intro h0
      exact Option.noConfusion h0
    · intro m1 _
      rw [heq]
      exact ⟨rfl, rfl⟩
  | none =>
    cases huid2 : alookup (fnMeta fsvc).uid fsc.byFunctionUID with
    | some m0 =>
      have heq : Add fsc fsvc now =
          ({ fsc with
              heap := (fsc.heap.alloc fsvc).1.write (fsc.heap.alloc fsvc).2 { fsvc with ctime := now, atime := now }
              byFunction := (CacheKey (fnMeta fsvc), (fsc.heap.alloc fsvc).2) :: fsc.byFunction
              byAddress := (fsvc.address, fnMeta fsvc) :: fsc.byAddress },
            none, none) := by
        unfold Add
        simp only [cacheSet, hkey, haddr2, huid2, isNameExist_nameExists, if_true]
      refine ⟨by rw [heq], ?_, ?_, ?_, ?_⟩
      · rw [heq]
        simp [alookup]
      · rw [heq]
        exact hwq
      · intro _
        refine ⟨?_, ?_, ?_⟩
        · rw [heq]
          simp [alookup]
        · intro h0
          exact Option.noConfusion h0
        · intro m1 _
          rw [heq]
      · intro m1 h0
        exact Option.noConfusion h0
    | none =>
      have heq : Add fsc fsvc now =
          ({ fsc with
              heap := (fsc.heap.alloc fsvc).1.write (fsc.heap.alloc fsvc).2 { fsvc with ctime := now, atime := now }
              byFunction := (CacheKey (fnMeta fsvc), (fsc.heap.alloc fsvc).2) :: fsc.byFunction
              byAddress := (fsvc.address, fnMeta fsvc) :: fsc.byAddress
              byFunctionUID := ((fnMeta fsvc).uid, fnMeta fsvc) :: fsc.byFunctionUID },
            none, none) := by
        unfold Add
        simp only [cacheSet, hkey, haddr2, huid2, isNameExist_nameExists, if_true]
      refine ⟨by rw [heq], ?_, ?_, ?_, ?_⟩
      · rw [heq]
        simp [alookup]
      · rw [heq]
        exact hwq
      · intro _
        refine ⟨?_, ?_, ?_⟩
        · rw [heq]
          simp [alookup]
        · intro _
          rw [heq]
          simp [alookup]
        · intro m1 h0
          exact Option.noConfusion h0
      · intro m1 h0
        exact Option.noConfusion h0

/-- Witness for the amended C3 on a fresh add into the empty cache. -/
theorem C3_add_fresh_amended_witness :
    (Add emptyFsc exSvc1 10).2 = (none, none) ∧
    alookup exSvc1.address (Add emptyFsc exSvc1 10).1.byAddress =
      some (fnMeta exSvc1) ∧
    alookup (fnMeta exSvc1).uid (Add emptyFsc exSvc1 10).1.byFunctionUID =
      some (fnMeta exSvc1) := by
  have h := C3_add_fresh_amended emptyFsc exSvc1 10 (by decide)
  have haddr := h.2.2.2.1 (by decide)
  exact ⟨h.1, haddr.1, haddr.2.1 (by decide)⟩


end Fscache
